import Mathlib

/-!
Verification of the legal-tech company discovery / research pipeline
(`Webscrapping/part1_company_discovery.py`, `Webscrapping/part2_company_research.py`).

Strings are modelled by Lean `String` / `List Char`.  Python's `str.lower`,
and the regex character classes `\w` and `\s`, are modelled on ASCII
(every input appearing in the claims is ASCII); `str.lower` is `Char.toLower`
mapped over the characters.  Network and LLM calls are I/O: each adapter's
outcome is passed in as an explicit argument (`Option` of its parsed result,
`none` standing for a raised-and-caught exception), exactly mirroring the
`try/except` structure of the source.
-/

namespace Webscrap

/-- ASCII model of Python's regex class `\s`:
space, tab (9), newline (10), vertical tab (11), form feed (12), carriage return (13). -/
def isPySpace (c : Char) : Bool :=
  c.toNat == 32 || (9 ≤ c.toNat && c.toNat ≤ 13)

/-- ASCII model of Python's regex class `\w`: letters, digits, underscore. -/
def isWordChar (c : Char) : Bool :=
  (97 ≤ c.toNat && c.toNat ≤ 122) || (65 ≤ c.toNat && c.toNat ≤ 90) ||
    (48 ≤ c.toNat && c.toNat ≤ 57) || c.toNat == 95

/-- Python `str.lower` on the character list (ASCII model, `Char.toLower`). -/
def lowerList (l : List Char) : List Char := l.map Char.toLower

/-- Python `str.lower` on strings. -/
def lowerStr (s : String) : String := ⟨lowerList s.data⟩

/-- `needle.isPrefixOf hay` on char lists, spelled out for easy induction. -/
def listPrefix : List Char → List Char → Bool
  | [], _ => true
  | _ :: _, [] => false
  | a :: as, b :: bs => a == b && listPrefix as bs

/-- Python's substring test `needle in hay` (on char lists). -/
def hasSub (needle : List Char) : List Char → Bool
  | [] => needle.isEmpty
  | c :: cs => listPrefix needle (c :: cs) || hasSub needle cs

/-- Python's substring test `needle in hay` on strings. -/
def strContains (hay needle : String) : Bool := hasSub needle.data hay.data

/-- Python `any(term in text for term in terms)`. -/
def anyTerm (terms : List String) (text : String) : Bool :=
  terms.any fun t => strContains text t

/-- Python `sep.join(parts)`. -/
def joinSep (sep : String) : List String → String
  | [] => ""
  | [s] => s
  | s :: rest => s ++ sep ++ joinSep sep rest

/-- Python `s.strip()`, front half: drop leading whitespace. -/
def dropLeading (l : List Char) : List Char := l.dropWhile isPySpace

/-- Python `s.strip()`, back half: drop trailing whitespace
(written with `foldr` so that it is structurally recursive). -/
def dropTrailing (l : List Char) : List Char :=
  l.foldr (fun c acc => if acc.isEmpty && isPySpace c then [] else c :: acc) []

/-- Python `s.strip()` (whitespace from both ends). -/
def pyStrip (l : List Char) : List Char := dropTrailing (dropLeading l)

/-- `re.sub(r'\s+', ' ', s)`: each maximal run of whitespace becomes a single
space.  The flag records whether the previous character belonged to a
whitespace run already replaced. -/
def collapseAux : Bool → List Char → List Char
  | _, [] => []
  | inRun, c :: cs =>
    if isPySpace c then
      if inRun then collapseAux true cs else ' ' :: collapseAux true cs
    else c :: collapseAux false cs

/-- `re.sub(r'\s+', ' ', s)`. -/
def collapseWs (l : List Char) : List Char := collapseAux false l

/-- The character class kept by `re.sub(r'[^\w\s]', '', s)`. -/
def keepChar (c : Char) : Bool := isWordChar c || isPySpace c

/-- `re.sub(r'[^\w\s]', '', s)`: delete every character that is neither a
word character nor whitespace. -/
def removeNonWord (l : List Char) : List Char :=
  l.filter keepChar

/-- The candidate-name normalization of `deduplicate_companies`
(part1, lines 434-437): `name.lower().strip()`, collapse whitespace runs,
then strip non-word punctuation. -/
def normalizeName (s : String) : String :=
  ⟨removeNonWord (collapseWs (pyStrip (lowerList s.data)))⟩

/-- A discovery candidate (the dict appended by the part1 search methods);
only the fields read by `deduplicate_companies` / `classify_companies` are
kept (`description`, `github_stars` and `votes` default to `''` / `0` via
`.get`, modelled by the record defaults). -/
structure Candidate where
  name : String
  source : String := ""
  description : String := ""
  github_stars : Nat := 0
  votes : Nat := 0
  deriving DecidableEq, Repr

/-- `deduplicate_companies` (part1, lines 426-444): walk the list keeping a
set of already-seen normalized names; a candidate is kept iff its normalized
name is new *and* longer than 2 characters. -/
def dedupAux (seen : List String) : List Candidate → List Candidate
  | [] => []
  | c :: cs =>
    let n := normalizeName c.name
    if n ∉ seen ∧ 2 < n.length then c :: dedupAux (n :: seen) cs
    else dedupAux seen cs

/-- `deduplicate_companies` applied to the accumulated candidate list. -/
def deduplicate_companies (companies : List Candidate) : List Candidate :=
  dedupAux [] companies

/-- The relevance-tier keyword test of `classify_companies`: the term lists
are checked against `name.lower() + description.lower()` (concatenated with
no separator, exactly as in the source). -/
def relevanceOf (c : Candidate) : String :=
  let text := lowerStr c.name ++ lowerStr c.description
  if anyTerm ["chatbot", "ai assistant", "legal assistant", "legal ai"] text then "direct"
  else if anyTerm ["legal tech", "law tech", "contract", "litigation", "compliance"] text
  then "indirect"
  else "peripheral"

/-- The confidence point score of `classify_companies` (part1, lines 456-477):
relevance base points plus one bonus each for an `'API'` source tag,
`github_stars > 100` and `votes > 50`. -/
def confidenceScore (c : Candidate) : Nat :=
  (if relevanceOf c = "direct" then 3
   else if relevanceOf c = "indirect" then 2
   else 1)
  + (if strContains c.source "API" then 1 else 0)
  + (if 100 < c.github_stars then 1 else 0)
  + (if 50 < c.votes then 1 else 0)

/-- The cut-point mapping of `classify_companies` (part1, lines 480-487). -/
def confidenceLevel (score : Nat) : String :=
  if 4 ≤ score then "very_high"
  else if 3 ≤ score then "high"
  else if 2 ≤ score then "medium"
  else "low"

/-- `classify_companies` on one candidate: the `(relevance, confidence)`
pair it stores into the candidate dict. -/
def classify_company (c : Candidate) : String × String :=
  (relevanceOf c, confidenceLevel (confidenceScore c))

/-! ## Part 2: the research pipeline data model -/

/-- Python string slicing `s[:n]`. -/
def strTake (s : String) (n : Nat) : String := ⟨s.data.take n⟩

/-- A Google-News RSS article (`google_news_search`); only the fields the
downstream analysis reads. -/
structure Article where
  title : String := ""
  description : String := ""
  deriving DecidableEq, Repr

/-- A Hacker News story (`hacker_news_search`). -/
structure Discussion where
  title : String := ""
  text : String := ""
  points : Nat := 0
  deriving DecidableEq, Repr

/-- An OpenCorporates company record (`opencorporates_search`); the source
dict always carries these keys, possibly with empty-string values. -/
structure CorpRecord where
  registered_name : String := ""
  jurisdiction : String := ""
  incorporation_date : String := ""
  deriving DecidableEq, Repr

/-- One GitHub repository summary (`github_search`). -/
structure Repo where
  name : String := ""
  description : String := ""
  stars : Nat := 0
  deriving DecidableEq, Repr

/-- The GitHub fragment (`github_search`); `{}` (adapter failure) behaves
like the all-default record at every use site, so failure is modelled by
the defaults. -/
structure GithubActivity where
  repo_count : Nat := 0
  total_stars : Nat := 0
  public_repos : List Repo := []
  deriving DecidableEq, Repr

/-- The DuckDuckGo fragment (`duckduckgo_search`), also the shape of the
Google-scraping fallback result. -/
structure DdgResult where
  website : String := ""
  search_results : String := ""
  deriving DecidableEq, Repr

/-- The merged evidence bundle built by `web_search_agent`
(part2, lines 144-220). -/
structure SearchData where
  website : String := ""
  search_results : String := ""
  news_mentions : List Article := []
  github_activity : GithubActivity := {}
  corporate_data : Option CorpRecord := none
  tech_mentions : List Discussion := []
  deriving DecidableEq, Repr

/-- `web_search_agent` (part2, lines 144-220).  Every adapter call sits in
its own `try/except`: an argument of `none` is a raised-and-caught adapter
failure, which leaves the corresponding field at its initialized default.
`fb` is the Google-scraping fallback, consulted only when neither a website
nor search text was found.  The compiled `search_results` text is the
bounded concatenation of lines 206-219. -/
def web_search_agent (ddg : Option DdgResult) (news : Option (List Article))
    (hn : Option (List Discussion)) (corp : Option CorpRecord)
    (gh : Option GithubActivity) (fb : Option DdgResult) : SearchData :=
  let base : DdgResult := ddg.getD {}
  let newsL : List Article := news.getD []
  let hnL : List Discussion := hn.getD []
  let ghA : GithubActivity := gh.getD {}
  let base :=
    if base.website = "" ∧ base.search_results = "" then
      match fb with
      | some f => f
      | none => base
    else base
  let newsPart :=
    String.join ((newsL.take 3).map fun a =>
      strTake (" " ++ a.title ++ " " ++ a.description) 500)
  let hnPart :=
    String.join ((hnL.take 2).map fun d =>
      strTake (" " ++ d.title ++ " " ++ d.text) 300)
  { website := base.website
    search_results :=
      (if base.search_results ≠ "" then strTake base.search_results 1000 else "")
        ++ newsPart ++ hnPart
    news_mentions := newsL
    github_activity := ghA
    corporate_data := corp
    tech_mentions := hnL }

/-! ## Website analysis agent -/

/-- Business-model detector of `website_analysis_agent` (lines 518-523),
on the lowercased page text. -/
def waBusinessModel (pageText : String) : String :=
  if anyTerm ["saas", "software as a service", "subscription"] pageText then "SaaS"
  else if anyTerm ["marketplace", "platform"] pageText then "Platform"
  else if anyTerm ["consulting", "services"] pageText then "Services"
  else "Unknown"

/-- Pricing extraction of `website_analysis_agent` (lines 526-531): the
first pricing regex with matches contributes its first three matches,
comma-joined. -/
def waPricing (pricingMatches : List (List String)) : String :=
  match pricingMatches.find? (fun m => !m.isEmpty) with
  | some m => joinSep ", " (m.take 3)
  | none => "Unknown"

/-- API detector of `website_analysis_agent` (lines 534-535). -/
def waApi (pageText : String) : String :=
  if anyTerm ["api", "developer", "integration"] pageText then "Yes" else "Unknown"

/-- Product extraction of `website_analysis_agent` (lines 538-540): content
of the description meta tag, truncated to 200 characters. -/
def waProduct (metaDesc : Option String) : String :=
  match metaDesc with
  | some d => strTake d 200
  | none => "Unknown"

/-- `website_analysis_agent` (part2, lines 498-545).  The HTTP fetch, the
HTML-to-text conversion, the pricing-regex matcher (`re.findall` of
`€\d+`, `\$\d+`, `£\d+`, `\d+/month`, `\d+/year` — every match is a
nonempty string) and the meta-description lookup are I/O, passed in as
arguments; `page = none` is a failed request, keeping the defaults. -/
def website_analysis_agent (url : String) (page : Option String)
    (metaDesc : Option String) (pricingMatches : List (List String)) :
    List (String × String) :=
  match page with
  | none =>
    [("website", url), ("business_model", "Unknown"), ("pricing", "Unknown"),
      ("product", "Unknown"), ("api_integration", "Unknown")]
  | some pg =>
    let pageText := lowerStr pg
    [("website", url), ("business_model", waBusinessModel pageText),
      ("pricing", waPricing pricingMatches), ("product", waProduct metaDesc),
      ("api_integration", waApi pageText)]

/-! ## Enhanced fallback analysis (`enhanced_fallback_analysis`, lines 624-758) -/

/-- Company-name AI indicator (lines 648-649), worth 2 points. -/
def aiNameInd (company_name : String) : Bool :=
  anyTerm ["ai", "chatbot", "assistant", "gpt", "bot"] (lowerStr company_name)

/-- Search-text AI indicator (lines 652-653), worth 1 point. -/
def aiSearchInd (sd : SearchData) : Bool :=
  anyTerm ["artificial intelligence", "machine learning", "nlp", "chatbot"]
    (lowerStr sd.search_results)

/-- News AI indicator (lines 656-660): any news item matching counts once. -/
def aiNewsInd (sd : SearchData) : Bool :=
  sd.news_mentions.any fun a =>
    anyTerm ["ai", "artificial intelligence", "chatbot"]
      (lowerStr (a.title ++ " " ++ a.description))

/-- Repository AI indicator (lines 663-667): any repo matching counts once. -/
def aiRepoInd (sd : SearchData) : Bool :=
  sd.github_activity.public_repos.any fun r =>
    anyTerm ["ai", "ml", "nlp", "chatbot", "assistant"]
      (lowerStr (r.name ++ " " ++ r.description))

/-- AI indicator count (lines 645-668): company name match weighs 2,
search text 1, first matching news item 1, first matching repository 1. -/
def aiScore (company_name : String) (sd : SearchData) : Nat :=
  (if aiNameInd company_name then 2 else 0)
  + (if aiSearchInd sd then 1 else 0)
  + (if aiNewsInd sd then 1 else 0)
  + (if aiRepoInd sd then 1 else 0)

/-- Verdict thresholds for the AI indicator count (lines 671-676). -/
def aiVerdict (n : Nat) : String :=
  if 3 ≤ n then "Yes - multiple AI indicators found"
  else if 1 ≤ n then "Possible - some AI indicators found"
  else "No - no clear AI indicators"

/-- `int(s[:4])` applied to the incorporation date (line 699): the first
four characters parsed as a decimal number; `none` when they are not all
digits (the surrounding `except: pass` then leaves the stage untouched). -/
def parseYear4 (s : String) : Option Nat :=
  let l := s.data.take 4
  if l ≠ [] ∧ l.all Char.isDigit then
    some (l.foldl (fun acc c => acc * 10 + (c.toNat - 48)) 0)
  else none

/-- `f"{title} {description}".lower()` for a news item. -/
def articleText (a : Article) : String := lowerStr (a.title ++ " " ++ a.description)

/-- Does a news item contain one of the funding keywords (line 686)? -/
def fundingKeyword (a : Article) : Bool :=
  anyTerm ["funding", "investment", "series", "raised", "venture"] (articleText a)

/-- Stage read off the first funding-keyword news item (lines 687-692);
`none` when the item has a funding keyword but no recognized round. -/
def stageOfArticle (a : Article) : Option String :=
  let t := articleText a
  if strContains t "series c" || strContains t "series d" then some "Established"
  else if strContains t "series a" || strContains t "series b" then some "Growth"
  else if strContains t "seed" then some "Startup"
  else none

/-- The funding-stage signal (lines 679-710): news first, then the
incorporation year against reference year 2025. -/
def fallbackStage (news : List Article) (corp : Option CorpRecord) : String :=
  match news.find? fundingKeyword with
  | some a => (stageOfArticle a).getD "Unknown"
  | none =>
    match corp with
    | some r =>
      if r.incorporation_date ≠ "" then
        match parseYear4 r.incorporation_date with
        | some y =>
          let years : Int := 2025 - (y : Int)
          if 8 ≤ years then "Established"
          else if 4 ≤ years then "Growth"
          else "Startup"
        | none => "Unknown"
      else "Unknown"
    | none => "Unknown"

/-- Region contributed by the registry jurisdiction code (lines 716-723):
an if/elif chain, so at most one region. -/
def jurisdictionRegion (corp : Option CorpRecord) : List String :=
  match corp with
  | some r =>
    if r.jurisdiction ≠ "" then
      let j := lowerStr r.jurisdiction
      if strContains j "de" || strContains j "german" then ["Germany"]
      else if anyTerm ["gb", "fr", "es", "it", "nl"] j then ["Europe"]
      else if strContains j "us" then ["Global/US"]
      else []
    else []
  | none => []

/-- `all_text` of line 726: the lowercased compiled search text followed by
the *raw* news titles and descriptions (the source does not lowercase the
news part here). -/
def coverageAllText (sd : SearchData) : String :=
  lowerStr sd.search_results ++ " " ++
    joinSep " " (sd.news_mentions.map fun a => a.title ++ " " ++ a.description)

/-- Region contributed by the combined text (lines 728-733): again an
if/elif chain, so at most one region. -/
def textRegion (allText : String) : List String :=
  if anyTerm ["german", "germany", "deutsch"] allText then ["Germany"]
  else if anyTerm ["europe", "european", "eu"] allText then ["Europe"]
  else if anyTerm ["global", "worldwide", "international"] allText then ["Global"]
  else []

/-- The full indicator list of lines 713-733. -/
def coverageIndicators (sd : SearchData) : List String :=
  jurisdictionRegion sd.corporate_data ++ textRegion (coverageAllText sd)

/-- First-occurrence deduplication, modelling `list(set(xs))` (Python's set
iteration order is unspecified; every theorem below uses this only on lists
with at most one distinct element, where any order agrees). -/
def dedupFirstAux (seen : List String) : List String → List String
  | [] => []
  | s :: rest =>
    if s ∈ seen then dedupFirstAux seen rest
    else s :: dedupFirstAux (s :: seen) rest

/-- `'/'.join(list(set(coverage_indicators)))` guarded by non-emptiness
(lines 735-736); `'Unknown'` when no indicator fired. -/
def fallbackCoverage (sd : SearchData) : String :=
  let ind := coverageIndicators sd
  if ind ≠ [] then joinSep "/" (dedupFirstAux [] ind) else "Unknown"

/-- The fixed prefix of the fallback comment (line 641). -/
def fallbackBase (company_name : String) : String :=
  "Enhanced analysis using FREE APIs for " ++ company_name

/-- The insight comment of lines 739-756. -/
def fallbackComment (company_name : String) (sd : SearchData) : String :=
  let n := sd.news_mentions.length
  let rc := sd.github_activity.repo_count
  let ts := sd.github_activity.total_stars
  let hs := sd.tech_mentions.length
  let pts := (sd.tech_mentions.map Discussion.points).sum
  let parts : List String :=
    (if sd.news_mentions ≠ [] then [s!"Recent news: {n} articles found"] else [])
    ++ (if 0 < rc then [s!"GitHub: {rc} repositories, {ts} stars"] else [])
    ++ (match sd.corporate_data with
        | some r => [s!"Registered in {r.jurisdiction}"]
        | none => [])
    ++ (if sd.tech_mentions ≠ [] then
          [s!"HN discussions: {hs} posts, {pts} total points"] else [])
  fallbackBase company_name ++
    (if parts ≠ [] then ". Additional insights: " ++ joinSep "; " parts else "")

/-- `enhanced_fallback_analysis` (part2, lines 624-758): the key/value dict
it returns, keys in source order.  Note: `fundraising_stage` is *not* among
its keys. -/
def enhanced_fallback_analysis (company_name : String) (sd : SearchData) :
    List (String × String) :=
  [("ai_powered_legal_chatbot", aiVerdict (aiScore company_name sd)),
   ("stage", fallbackStage sd.news_mentions sd.corporate_data),
   ("multilingual_support", "Unknown"),
   ("mobile_web_accessibility", "Unknown"),
   ("free_tier", "Unknown"),
   ("subscription_based", "Unknown"),
   ("target_audience", "Unknown"),
   ("coverage", fallbackCoverage sd),
   ("founding_team_rating", "3"),
   ("direct_indirect", "Unknown"),
   ("comment", fallbackComment company_name sd)]

/-! ## LLM call and enrichment dispatch -/

/-- A JSON object response, modelled as its key/value pairs (the prompt
demands a flat string-valued object). -/
abbrev Json := List (String × String)

/-- One attempt of `call_groq_llm` (part2, lines 760-841), as observed at
the network boundary: `success p` is an HTTP 200 whose body parsed to `p`
(`none` when `json.loads` failed); `fatal` is a 401 or other non-retryable
client error (immediate `return None`); `retryable` is a 429 / 5xx /
connection / timeout failure that consumes one retry. -/
inductive LlmAttempt where
  | success (parsed : Option Json)
  | fatal
  | retryable
  deriving DecidableEq, Repr

/-- `call_groq_llm`: walk the (bounded) attempt list; the first
successfully parsed body is returned, invalid JSON and retryable failures
retry, a fatal failure or retry exhaustion yields `none`. -/
def call_groq_llm : List LlmAttempt → Option Json
  | [] => none
  | .success (some j) :: _ => some j
  | .success none :: rest => call_groq_llm rest
  | .fatal :: _ => none
  | .retryable :: rest => call_groq_llm rest

/-- `llm_research_agent` (part2, lines 547-622): the parsed LLM response is
returned as-is when the call pipeline produced one; otherwise the fallback
heuristic result.  (No key-set validation happens on the parsed object.) -/
def llm_research_agent (company_name : String) (sd : SearchData)
    (attempts : List LlmAttempt) : Json :=
  match call_groq_llm attempts with
  | some j => j
  | none => enhanced_fallback_analysis company_name sd

/-! ## Funding and competition agents -/

/-- One Google results page scan of `funding_research_agent`
(part2, lines 843-892): the first matching round keyword on the lowercased
page text overwrites the pair; `none` is a failed request. -/
def fundingStep (fd : String × String) (page : Option String) : String × String :=
  match page with
  | none => fd
  | some pg =>
    let text := lowerStr pg
    if strContains text "series a" then ("Series A", "Growth")
    else if strContains text "series b" then ("Series B", "Growth")
    else if strContains text "series c" then ("Series C", "Established")
    else if strContains text "seed" then ("Seed", "Startup")
    else if strContains text "pre-seed" then ("Pre-seed", "Startup")
    else fd

/-- `funding_research_agent`, returning its `(fundraising_stage, stage)`
dict; both default to `"Unknown"`. -/
def funding_research_agent (pages : List (Option String)) : List (String × String) :=
  let fd := pages.foldl fundingStep ("Unknown", "Unknown")
  [("fundraising_stage", fd.1), ("stage", fd.2)]

/-- The regex extractions of one `competition_analysis_agent` results page
(part2, lines 894-953): the `re.findall` capture groups for the partnership
patterns (each capture of `(\w+)` is a nonempty string) and for the first
matching user-metric pattern. -/
structure CompPage where
  partnerships : List String := []
  userMetrics : List String := []
  deriving DecidableEq, Repr

/-- One page scan of `competition_analysis_agent`: nonempty extraction
lists overwrite the comma-joined values. -/
def compStep (cd : String × String) (page : Option CompPage) : String × String :=
  match page with
  | none => cd
  | some p =>
    let cd1 := if p.partnerships ≠ [] then (joinSep ", " p.partnerships, cd.2) else cd
    if p.userMetrics ≠ [] then (cd1.1, joinSep ", " (p.userMetrics.take 2)) else cd1

/-- `competition_analysis_agent`, returning its dict; both values default
to `"Unknown"`. -/
def competition_analysis_agent (pages : List (Option CompPage)) :
    List (String × String) :=
  let cd := pages.foldl compStep ("Unknown", "Unknown")
  [("partnerships_integrations", cd.1), ("user_base_growth_rate", cd.2)]

/-! ## Profile construction (`research_single_company`, lines 92-142) -/

/-- The profile dict of `research_single_company`: the identity fields plus
the 18 enrichment attributes, in source order. -/
structure Profile where
  competitor : String
  discovery_info : Candidate
  research_timestamp : String
  website : String
  business_model : String
  ai_powered_legal_chatbot : String
  stage : String
  fundraising_stage : String
  multilingual_support : String
  mobile_web_accessibility : String
  api_integration : String
  free_tier : String
  subscription_based : String
  pricing : String
  target_audience : String
  user_base_growth_rate : String
  partnerships_integrations : String
  coverage : String
  product : String
  founding_team_rating : String
  direct_indirect : String
  comment : String
  deriving DecidableEq, Repr

/-- The initialized profile of lines 97-120: every enrichment value starts
as the empty string. -/
def initProfile (c : Candidate) (ts : String) : Profile :=
  { competitor := c.name, discovery_info := c, research_timestamp := ts,
    website := "", business_model := "", ai_powered_legal_chatbot := "",
    stage := "", fundraising_stage := "", multilingual_support := "",
    mobile_web_accessibility := "", api_integration := "", free_tier := "",
    subscription_based := "", pricing := "", target_audience := "",
    user_base_growth_rate := "", partnerships_integrations := "",
    coverage := "", product := "", founding_team_rating := "",
    direct_indirect := "", comment := "" }

/-- One key of `profile.update(kvs)`. -/
def updStr (kvs : List (String × String)) (k : String) (old : String) : String :=
  match kvs.lookup k with
  | some v => v
  | none => old

/-- `profile.update(kvs)` over the string-valued profile keys.  (Extra keys
outside the fixed schema, which Python would add as fresh dict entries, do
not touch the declared attributes and are dropped.) -/
def applyUpdate (p : Profile) (kvs : List (String × String)) : Profile :=
  { p with
    competitor := updStr kvs "competitor" p.competitor
    research_timestamp := updStr kvs "research_timestamp" p.research_timestamp
    website := updStr kvs "website" p.website
    business_model := updStr kvs "business_model" p.business_model
    ai_powered_legal_chatbot :=
      updStr kvs "ai_powered_legal_chatbot" p.ai_powered_legal_chatbot
    stage := updStr kvs "stage" p.stage
    fundraising_stage := updStr kvs "fundraising_stage" p.fundraising_stage
    multilingual_support := updStr kvs "multilingual_support" p.multilingual_support
    mobile_web_accessibility :=
      updStr kvs "mobile_web_accessibility" p.mobile_web_accessibility
    api_integration := updStr kvs "api_integration" p.api_integration
    free_tier := updStr kvs "free_tier" p.free_tier
    subscription_based := updStr kvs "subscription_based" p.subscription_based
    pricing := updStr kvs "pricing" p.pricing
    target_audience := updStr kvs "target_audience" p.target_audience
    user_base_growth_rate := updStr kvs "user_base_growth_rate" p.user_base_growth_rate
    partnerships_integrations :=
      updStr kvs "partnerships_integrations" p.partnerships_integrations
    coverage := updStr kvs "coverage" p.coverage
    product := updStr kvs "product" p.product
    founding_team_rating := updStr kvs "founding_team_rating" p.founding_team_rating
    direct_indirect := updStr kvs "direct_indirect" p.direct_indirect
    comment := updStr kvs "comment" p.comment }

/-- Every I/O outcome consumed by one `research_single_company` run, in the
order the agents fire. -/
structure AdapterInputs where
  ddg : Option DdgResult := none
  news : Option (List Article) := none
  hn : Option (List Discussion) := none
  corp : Option CorpRecord := none
  gh : Option GithubActivity := none
  fb : Option DdgResult := none
  page : Option String := none
  metaDesc : Option String := none
  pricingMatches : List (List String) := []
  llm : List LlmAttempt := []
  fundingPages : List (Option String) := []
  compPages : List (Option CompPage) := []
  deriving Repr

/-- `research_single_company` (part2, lines 92-142): initialize the profile,
run the website agent only when a website was found, then merge the
LLM-or-fallback, funding and competition dicts in order. -/
def research_single_company (company : Candidate) (ts : String)
    (io : AdapterInputs) : Profile :=
  let sd := web_search_agent io.ddg io.news io.hn io.corp io.gh io.fb
  let p0 := initProfile company ts
  let p1 :=
    if sd.website ≠ "" then
      applyUpdate p0 (website_analysis_agent sd.website io.page io.metaDesc io.pricingMatches)
    else p0
  let p2 := applyUpdate p1 (llm_research_agent company.name sd io.llm)
  let p3 := applyUpdate p2 (funding_research_agent io.fundingPages)
  applyUpdate p3 (competition_analysis_agent io.compPages)

/-! ## Derived definitions used by the verification -/

/-- Every character is fixed by `Char.toLower`. -/
def allLower (l : List Char) : Bool := l.all fun c => Char.toLower c == c

/-- The whitespace shape produced by `collapseWs`: every whitespace
character is a plain space, never two in a row (the flag records whether
the previous character was a space). -/
def wsOk : Bool → List Char → Bool
  | _, [] => true
  | prev, c :: cs =>
    if isPySpace c then (c == ' ') && !prev && wsOk true cs else wsOk false cs

/-- No punctuation: every character is a word character or whitespace
(the class on which `removeNonWord` is the identity). -/
def punctFree (l : List Char) : Bool := l.all keepChar

/-- The funding agent's accumulated `(fundraising_stage, stage)` pair. -/
def fundingResult (pages : List (Option String)) : String × String :=
  pages.foldl fundingStep ("Unknown", "Unknown")

/-- The competition agent's accumulated pair. -/
def compResult (pages : List (Option CompPage)) : String × String :=
  pages.foldl compStep ("Unknown", "Unknown")

/-- The evidence bundle one research run sees, as a function of the adapter
outcomes. -/
def sdOf (io : AdapterInputs) : SearchData :=
  web_search_agent io.ddg io.news io.hn io.corp io.gh io.fb

/-- The enrichment keys demanded by the prompt's JSON schema
(part2, lines 593-606). -/
def declaredLlmKeys : List String :=
  ["ai_powered_legal_chatbot", "stage", "multilingual_support",
   "mobile_web_accessibility", "free_tier", "subscription_based",
   "target_audience", "coverage", "founding_team_rating", "direct_indirect",
   "comment"]

/-- Modelled from the spec: the strict key-set validation the claim
describes — a response object passes the contract exactly when its key set
coincides with the declared enrichment keys.  (No such check exists in the
source; this definition exists only to be compared against it.) -/
def specContractOk (j : Json) : Bool :=
  declaredLlmKeys.all (fun k => (j.map Prod.fst).contains k) &&
    (j.map Prod.fst).all (fun k => declaredLlmKeys.contains k)

/-- Modelled from the spec: the set of regions whose country/region
keywords match in the combined bundle text, as the claim's
"union of the keyword matches" describes (over the same combined text the
code scans). -/
def specCoverageRegions (sd : SearchData) : List String :=
  (if anyTerm ["german", "germany", "deutsch"] (coverageAllText sd)
    then ["Germany"] else [])
  ++ (if anyTerm ["europe", "european", "eu"] (coverageAllText sd)
    then ["Europe"] else [])
  ++ (if anyTerm ["global", "worldwide", "international"] (coverageAllText sd)
    then ["Global"] else [])

/-- Rank of the Yes/Possible/No verdict strings, for monotonicity
statements. -/
def verdictRank (s : String) : Nat :=
  if s = "Yes - multiple AI indicators found" then 2
  else if s = "Possible - some AI indicators found" then 1
  else 0

/-- Adapter outcomes of a witness run in which a website is found, the LLM
attempt list is empty (fallback path) and the auxiliary agents extract
nonempty matches. -/
def ioWitness : AdapterInputs :=
  { ddg := some { website := "https://testco.example"
                  search_results := "TestCo builds legal software" }
    page := some "A SaaS platform with API for lawyers"
    metaDesc := some "Legal AI assistant"
    pricingMatches := [["€10", "€20"]]
    llm := []
    fundingPages := [some "TestCo raised a seed round"]
    compPages := [some { partnerships := ["Clio"], userMetrics := ["1,000"] }] }

/-- Adapter outcomes of a run in which a website is found and the fetched
page carries a description meta tag with *empty* content
(`<meta name="description" content="">` — the tag itself is truthy, so the
source assigns its empty content). -/
def ioEmptyMeta : AdapterInputs :=
  { ddg := some { website := "https://x.example" }
    page := some "some page text"
    metaDesc := some ""
    llm := [] }

/-! ## Character-level lemmas -/

theorem char_toNat_ofNat {n : Nat} (h : n.isValidChar) : (Char.ofNat n).toNat = n := by
  simp only [Char.ofNat, h, dif_pos, Char.ofNatAux, Char.toNat, UInt32.toNat]
  rfl

theorem toLower_toNat_of_upper {c : Char} (h : 65 ≤ c.toNat) (h2 : c.toNat ≤ 90) :
    (Char.toLower c).toNat = c.toNat + 32 := by
  have hv : (c.toNat + 32).isValidChar := Or.inl (by omega)
  simp only [Char.toLower]
  rw [if_pos ⟨h, h2⟩]
  exact char_toNat_ofNat hv

theorem toLower_eq_of_not_upper {c : Char} (h : ¬(65 ≤ c.toNat ∧ c.toNat ≤ 90)) :
    Char.toLower c = c := by
  simp only [Char.toLower]
  rw [if_neg h]

theorem toLower_toLower (c : Char) : Char.toLower (Char.toLower c) = Char.toLower c := by
  by_cases h : 65 ≤ c.toNat ∧ c.toNat ≤ 90
  · have := toLower_toNat_of_upper h.1 h.2
    exact toLower_eq_of_not_upper (by omega)
  · rw [toLower_eq_of_not_upper h, toLower_eq_of_not_upper h]

theorem isWordChar_toLower (c : Char) : isWordChar (Char.toLower c) = isWordChar c := by
  by_cases h : 65 ≤ c.toNat ∧ c.toNat ≤ 90
  · have ht := toLower_toNat_of_upper h.1 h.2
    have h1 := h.1; have h2 := h.2
    rw [Bool.eq_iff_iff]
    simp only [isWordChar, ht, Bool.or_eq_true, Bool.and_eq_true, decide_eq_true_eq,
      beq_iff_eq]
    omega
  · rw [toLower_eq_of_not_upper h]

theorem isPySpace_toLower (c : Char) : isPySpace (Char.toLower c) = isPySpace c := by
  by_cases h : 65 ≤ c.toNat ∧ c.toNat ≤ 90
  · have ht := toLower_toNat_of_upper h.1 h.2
    have h1 := h.1; have h2 := h.2
    rw [Bool.eq_iff_iff]
    simp only [isPySpace, ht, Bool.or_eq_true, Bool.and_eq_true, decide_eq_true_eq,
      beq_iff_eq]
    omega
  · rw [toLower_eq_of_not_upper h]

theorem keepChar_toLower (c : Char) : keepChar (Char.toLower c) = keepChar c := by
  simp [keepChar, isWordChar_toLower, isPySpace_toLower]

theorem toLower_space : Char.toLower ' ' = ' ' := by decide

/-! ## Substring lemmas -/

theorem listPrefix_nil (l : List Char) : listPrefix [] l = true := by
  cases l <;> rfl

theorem listPrefix_append {n l : List Char} (e : List Char)
    (h : listPrefix n l = true) : listPrefix n (l ++ e) = true := by
  induction n generalizing l with
  | nil => exact listPrefix_nil _
  | cons a as ih =>
    cases l with
    | nil => simp [listPrefix] at h
    | cons b bs =>
      simp only [listPrefix, Bool.and_eq_true] at h ⊢
      exact ⟨h.1, ih h.2⟩

theorem hasSub_nil_needle (l : List Char) : hasSub [] l = true := by
  cases l with
  | nil => rfl
  | cons c cs => simp [hasSub, listPrefix]

theorem hasSub_append {n h : List Char} (e : List Char)
    (hh : hasSub n h = true) : hasSub n (h ++ e) = true := by
  induction h with
  | nil =>
    simp only [hasSub, List.isEmpty_iff] at hh
    subst hh
    exact hasSub_nil_needle _
  | cons c cs ih =>
    simp only [hasSub, Bool.or_eq_true] at hh
    rcases hh with hp | hs
    · simp only [List.cons_append, hasSub, Bool.or_eq_true]
      exact Or.inl (listPrefix_append e hp)
    · simp only [List.cons_append, hasSub, Bool.or_eq_true]
      exact Or.inr (ih hs)

theorem strContains_append {s needle : String} (t : String)
    (h : strContains s needle = true) : strContains (s ++ t) needle = true := by
  simp only [strContains] at h ⊢
  rw [String.data_append]
  exact hasSub_append _ h

theorem anyTerm_append {terms : List String} {s : String} (t : String)
    (h : anyTerm terms s = true) : anyTerm terms (s ++ t) = true := by
  simp only [anyTerm, List.any_eq_true] at h ⊢
  obtain ⟨u, hu, hc⟩ := h
  exact ⟨u, hu, strContains_append t hc⟩

theorem lowerStr_append (s t : String) : lowerStr (s ++ t) = lowerStr s ++ lowerStr t := by
  simp only [lowerStr, lowerList]
  apply congrArg
  rw [String.data_append]
  exact List.map_append _ _ _

/-! ## Whitespace-normalization lemmas (towards the idempotence claim) -/

theorem dropTrailing_cons (c : Char) (cs : List Char) :
    dropTrailing (c :: cs) =
      if (dropTrailing cs).isEmpty && isPySpace c then [] else c :: dropTrailing cs := rfl

theorem all_of_sublist {p : Char → Bool} {s l : List Char} (hs : s.Sublist l)
    (h : l.all p = true) : s.all p = true := by
  rw [List.all_eq_true] at h ⊢
  exact fun x hx => h x (hs.subset hx)

theorem dropTrailing_sublist (l : List Char) : (dropTrailing l).Sublist l := by
  induction l with
  | nil => exact List.Sublist.refl _
  | cons c cs ih =>
    rw [dropTrailing_cons]
    split
    · exact List.nil_sublist _
    · exact ih.cons₂ c

theorem pyStrip_sublist (l : List Char) : (pyStrip l).Sublist l :=
  (dropTrailing_sublist _).trans (List.dropWhile_sublist _)

theorem collapseAux_cons_space_true {c : Char} {cs : List Char} (hc : isPySpace c = true) :
    collapseAux true (c :: cs) = collapseAux true cs := by
  simp [collapseAux, hc]

theorem collapseAux_cons_space_false {c : Char} {cs : List Char} (hc : isPySpace c = true) :
    collapseAux false (c :: cs) = ' ' :: collapseAux true cs := by
  simp [collapseAux, hc]

theorem collapseAux_cons_nonspace {c : Char} {cs : List Char} (b : Bool)
    (hc : isPySpace c = false) :
    collapseAux b (c :: cs) = c :: collapseAux false cs := by
  simp [collapseAux, hc]

theorem collapseAux_all {p : Char → Bool} (hsp : p ' ' = true) :
    ∀ (l : List Char) (b : Bool), l.all p = true → (collapseAux b l).all p = true := by
  intro l
  induction l with
  | nil => intro b _; rfl
  | cons c cs ih =>
    intro b h
    simp only [List.all_cons, Bool.and_eq_true] at h
    by_cases hc : isPySpace c = true
    · cases b with
      | true =>
        rw [collapseAux_cons_space_true hc]
        exact ih true h.2
      | false =>
        rw [collapseAux_cons_space_false hc]
        simp only [List.all_cons, Bool.and_eq_true]
        exact ⟨hsp, ih true h.2⟩
    · rw [Bool.not_eq_true] at hc
      rw [collapseAux_cons_nonspace b hc]
      simp only [List.all_cons, Bool.and_eq_true]
      exact ⟨h.1, ih false h.2⟩

theorem filter_eq_self_of_all {p : Char → Bool} {l : List Char} (h : l.all p = true) :
    l.filter p = l := by
  rw [List.filter_eq_self]
  rw [List.all_eq_true] at h
  exact h

theorem map_eq_self_of_fix {f : Char → Char} {l : List Char}
    (h : ∀ c ∈ l, f c = c) : l.map f = l := by
  induction l with
  | nil => rfl
  | cons c cs ih =>
    simp only [List.map_cons, h c (List.mem_cons_self c cs)]
    rw [ih fun x hx => h x (List.mem_cons_of_mem c hx)]

theorem allLower_lowerList (l : List Char) : allLower (lowerList l) = true := by
  rw [allLower, List.all_eq_true]
  intro c hc
  rw [lowerList, List.mem_map] at hc
  obtain ⟨x, _, rfl⟩ := hc
  simp [toLower_toLower]

theorem lowerList_eq_of_allLower {l : List Char} (h : allLower l = true) :
    lowerList l = l := by
  rw [allLower, List.all_eq_true] at h
  exact map_eq_self_of_fix fun c hc => by
    have := h c hc
    simpa using this

theorem wsOk_cons_space {prev : Bool} {c : Char} {cs : List Char}
    (hc : isPySpace c = true) :
    wsOk prev (c :: cs) = ((c == ' ') && !prev && wsOk true cs) := by
  simp [wsOk, hc]

theorem wsOk_cons_nonspace {prev : Bool} {c : Char} {cs : List Char}
    (hc : isPySpace c = false) :
    wsOk prev (c :: cs) = wsOk false cs := by
  simp [wsOk, hc]

theorem wsOk_collapseAux :
    ∀ (l : List Char) (b : Bool), wsOk b (collapseAux b l) = true := by
  intro l
  induction l with
  | nil => intro b; rfl
  | cons c cs ih =>
    intro b
    by_cases hc : isPySpace c = true
    · cases b with
      | true =>
        rw [collapseAux_cons_space_true hc]
        exact ih true
      | false =>
        rw [collapseAux_cons_space_false hc, wsOk_cons_space (by decide)]
        simpa using ih true
    · rw [Bool.not_eq_true] at hc
      rw [collapseAux_cons_nonspace b hc, wsOk_cons_nonspace hc]
      exact ih false

theorem collapseAux_eq_of_wsOk :
    ∀ (l : List Char) (b : Bool), wsOk b l = true → collapseAux b l = l := by
  intro l
  induction l with
  | nil => intro b _; rfl
  | cons c cs ih =>
    intro b h
    by_cases hc : isPySpace c = true
    · rw [wsOk_cons_space hc] at h
      simp only [Bool.and_eq_true, Bool.not_eq_true', beq_iff_eq] at h
      obtain ⟨⟨hcsp, hb⟩, hcs⟩ := h
      subst hb
      subst hcsp
      rw [collapseAux_cons_space_false hc]
      rw [ih true hcs]
    · rw [Bool.not_eq_true] at hc
      rw [wsOk_cons_nonspace hc] at h
      rw [collapseAux_cons_nonspace b hc]
      rw [ih false h]

theorem collapseWs_collapseWs (l : List Char) :
    collapseWs (collapseWs l) = collapseWs l :=
  collapseAux_eq_of_wsOk _ false (wsOk_collapseAux l false)

theorem not_space_head_of_dropLeading_fix {c : Char} {cs : List Char}
    (h : dropLeading (c :: cs) = c :: cs) : isPySpace c = false := by
  by_contra hsp
  rw [Bool.not_eq_false] at hsp
  rw [dropLeading, List.dropWhile_cons_of_pos hsp] at h
  have hlen := congrArg List.length h
  have hle := (List.dropWhile_sublist (l := cs) isPySpace).length_le
  simp only [List.length_cons] at hlen
  omega

theorem dropLeading_idem (l : List Char) : dropLeading (dropLeading l) = dropLeading l := by
  induction l with
  | nil => rfl
  | cons c cs ih =>
    by_cases hc : isPySpace c = true
    · simp only [dropLeading, List.dropWhile_cons_of_pos hc] at ih ⊢
      exact ih
    · have hcf : ¬ isPySpace c = true := hc
      simp only [dropLeading, List.dropWhile_cons_of_neg hcf]

theorem dropTrailing_all_space {l : List Char} (h : l.all isPySpace = true) :
    dropTrailing l = [] := by
  induction l with
  | nil => rfl
  | cons c cs ih =>
    simp only [List.all_cons, Bool.and_eq_true] at h
    rw [dropTrailing_cons, ih h.2]
    simp [h.1]

theorem dropTrailing_idem (l : List Char) :
    dropTrailing (dropTrailing l) = dropTrailing l := by
  induction l with
  | nil => rfl
  | cons c cs ih =>
    rw [dropTrailing_cons]
    split
    · rfl
    · next hcond =>
      rw [dropTrailing_cons, ih]
      split
      · next habs => exact absurd habs hcond
      · rfl

theorem dropTrailing_fix_cons {c : Char} {cs : List Char}
    (h : dropTrailing (c :: cs) = c :: cs) :
    dropTrailing cs = cs ∧ ¬((cs = []) ∧ isPySpace c = true) := by
  rw [dropTrailing_cons] at h
  by_cases hcond : ((dropTrailing cs).isEmpty && isPySpace c) = true
  · rw [if_pos hcond] at h
    exact absurd h.symm (List.cons_ne_nil c cs)
  · rw [if_neg hcond] at h
    have htail : dropTrailing cs = cs := by
      injection h
    refine ⟨htail, ?_⟩
    rintro ⟨rfl, hsp⟩
    rw [htail] at hcond
    simp [hsp] at hcond

theorem exists_nonspace_of_dropTrailing_fix {l : List Char}
    (hfix : dropTrailing l = l) (hne : l ≠ []) : l.all isPySpace = false := by
  by_contra hall
  rw [Bool.not_eq_false] at hall
  exact hne (hfix ▸ dropTrailing_all_space hall)

theorem collapseAux_ne_nil {l : List Char} (b : Bool)
    (h : l.all isPySpace = false) : collapseAux b l ≠ [] := by
  induction l generalizing b with
  | nil => simp at h
  | cons c cs ih =>
    by_cases hc : isPySpace c = true
    · simp only [List.all_cons, hc, Bool.true_and] at h
      cases b with
      | true =>
        rw [collapseAux_cons_space_true hc]
        exact ih true h
      | false =>
        rw [collapseAux_cons_space_false hc]
        exact List.cons_ne_nil _ _
    · rw [Bool.not_eq_true] at hc
      rw [collapseAux_cons_nonspace b hc]
      exact List.cons_ne_nil _ _

theorem collapse_preserves_leading {l : List Char} (b : Bool)
    (h : dropLeading l = l) : dropLeading (collapseAux b l) = collapseAux b l := by
  cases l with
  | nil => rfl
  | cons c cs =>
    have hns := not_space_head_of_dropLeading_fix h
    rw [collapseAux_cons_nonspace b hns]
    have hnsP : ¬ isPySpace c = true := by
      rw [hns]
      exact Bool.false_ne_true
    simp only [dropLeading, List.dropWhile_cons_of_neg hnsP]

theorem collapse_preserves_trailing {l : List Char} (b : Bool)
    (h : dropTrailing l = l) : dropTrailing (collapseAux b l) = collapseAux b l := by
  induction l generalizing b with
  | nil => rfl
  | cons c cs ih =>
    obtain ⟨htail, hend⟩ := dropTrailing_fix_cons h
    by_cases hc : isPySpace c = true
    · have hcs : cs ≠ [] := by
        intro hnil
        exact hend ⟨hnil, hc⟩
      have hnsp : cs.all isPySpace = false :=
        exists_nonspace_of_dropTrailing_fix htail hcs
      have hne : collapseAux true cs ≠ [] := collapseAux_ne_nil true hnsp
      have hrec : dropTrailing (collapseAux true cs) = collapseAux true cs := ih true htail
      cases b with
      | true =>
        rw [collapseAux_cons_space_true hc]
        exact hrec
      | false =>
        rw [collapseAux_cons_space_false hc, dropTrailing_cons, hrec]
        have hemp : (collapseAux true cs).isEmpty = false := by
          cases hx : collapseAux true cs with
          | nil => exact absurd hx hne
          | cons a as => rfl
        rw [hemp]
        simp
    · rw [Bool.not_eq_true] at hc
      have hrec : dropTrailing (collapseAux false cs) = collapseAux false cs := ih false htail
      rw [collapseAux_cons_nonspace b hc, dropTrailing_cons, hrec]
      rw [hc]
      simp

theorem dropLeading_dropTrailing {l : List Char} (h : dropLeading l = l) :
    dropLeading (dropTrailing l) = dropTrailing l := by
  cases l with
  | nil => rfl
  | cons c cs =>
    have hns := not_space_head_of_dropLeading_fix h
    have hnsP : ¬ isPySpace c = true := by
      rw [hns]
      exact Bool.false_ne_true
    rw [dropTrailing_cons]
    split
    · rfl
    · simp only [dropLeading, List.dropWhile_cons_of_neg hnsP]

theorem punctFree_lowerList {l : List Char} (h : punctFree l = true) :
    punctFree (lowerList l) = true := by
  rw [punctFree, List.all_eq_true] at h ⊢
  intro c hc
  rw [lowerList, List.mem_map] at hc
  obtain ⟨x, hx, rfl⟩ := hc
  rw [keepChar_toLower]
  exact h x hx

/-- `normalizeName` is idempotent on punctuation-free strings: the second
pass finds an already lowercased, stripped, whitespace-collapsed,
punctuation-free string and fixes it. -/
theorem normalizeName_idem_of_punctFree (s : String) (h : punctFree s.data = true) :
    normalizeName (normalizeName s) = normalizeName s := by
  have hLow : punctFree (lowerList s.data) = true := punctFree_lowerList h
  have hStrip : punctFree (pyStrip (lowerList s.data)) = true :=
    all_of_sublist (pyStrip_sublist _) hLow
  have hColl : punctFree (collapseWs (pyStrip (lowerList s.data))) = true :=
    collapseAux_all (by decide) _ false hStrip
  have hfilter : removeNonWord (collapseWs (pyStrip (lowerList s.data)))
      = collapseWs (pyStrip (lowerList s.data)) := filter_eq_self_of_all hColl
  have hdef : normalizeName s = ⟨collapseWs (pyStrip (lowerList s.data))⟩ := by
    rw [normalizeName, hfilter]
  have hAL0 : allLower (lowerList s.data) = true := allLower_lowerList _
  have hAL1 : allLower (pyStrip (lowerList s.data)) = true :=
    all_of_sublist (pyStrip_sublist _) hAL0
  have hAL : allLower (collapseWs (pyStrip (lowerList s.data))) = true :=
    collapseAux_all (by decide) _ false hAL1
  have hdl0 : dropLeading (dropLeading (lowerList s.data))
      = dropLeading (lowerList s.data) := dropLeading_idem _
  have hdl1 : dropLeading (pyStrip (lowerList s.data)) = pyStrip (lowerList s.data) :=
    dropLeading_dropTrailing hdl0
  have hLead : dropLeading (collapseWs (pyStrip (lowerList s.data)))
      = collapseWs (pyStrip (lowerList s.data)) := collapse_preserves_leading false hdl1
  have hdt1 : dropTrailing (pyStrip (lowerList s.data)) = pyStrip (lowerList s.data) :=
    dropTrailing_idem _
  have hTrail : dropTrailing (collapseWs (pyStrip (lowerList s.data)))
      = collapseWs (pyStrip (lowerList s.data)) := collapse_preserves_trailing false hdt1
  have hWs : collapseWs (collapseWs (pyStrip (lowerList s.data)))
      = collapseWs (pyStrip (lowerList s.data)) := collapseWs_collapseWs _
  rw [hdef, normalizeName]
  show (⟨removeNonWord (collapseWs (pyStrip (lowerList
      (collapseWs (pyStrip (lowerList s.data))))))⟩ : String) = _
  rw [lowerList_eq_of_allLower hAL, pyStrip, hLead, hTrail, hWs, hfilter]

/-! ## Deduplication lemmas -/

theorem dedupAux_sublist :
    ∀ (cs : List Candidate) (seen : List String), (dedupAux seen cs).Sublist cs := by
  intro cs
  induction cs with
  | nil => intro seen; exact List.Sublist.refl _
  | cons d tl ih =>
    intro seen
    simp only [dedupAux]
    split
    · exact (ih _).cons₂ d
    · exact (ih _).cons d

theorem dedupAux_mem :
    ∀ (cs : List Candidate) (seen : List String) (c : Candidate),
      c ∈ dedupAux seen cs →
      normalizeName c.name ∉ seen ∧ 2 < (normalizeName c.name).length ∧
        cs.find? (fun d => normalizeName d.name == normalizeName c.name) = some c := by
  intro cs
  induction cs with
  | nil =>
    intro seen c h
    simp [dedupAux] at h
  | cons d tl ih =>
    intro seen c h
    simp only [dedupAux] at h
    split at h
    · next hcond =>
      rcases List.mem_cons.mp h with rfl | hrec
      · refine ⟨hcond.1, hcond.2, ?_⟩
        rw [List.find?_cons_of_pos _ (by simp)]
      · obtain ⟨hnot, hlen, hfind⟩ := ih _ _ hrec
        have hne : normalizeName d.name ≠ normalizeName c.name := by
          intro heq
          exact hnot (heq ▸ List.mem_cons_self _ _)
        refine ⟨fun hmem => hnot (List.mem_cons_of_mem _ hmem), hlen, ?_⟩
        rw [List.find?_cons_of_neg _ (by simpa using hne)]
        exact hfind
    · next hcond =>
      obtain ⟨hnot, hlen, hfind⟩ := ih _ _ h
      have hne : normalizeName d.name ≠ normalizeName c.name := by
        intro heq
        rw [Classical.not_and_iff_or_not_not] at hcond
        rcases hcond with hin | hshort
        · rw [not_not] at hin
          exact hnot (heq ▸ hin)
        · rw [heq] at hshort
          omega
      refine ⟨hnot, hlen, ?_⟩
      rw [List.find?_cons_of_neg _ (by simpa using hne)]
      exact hfind

theorem dedupAux_complete :
    ∀ (cs : List Candidate) (seen : List String) (c : Candidate),
      cs.find? (fun d => normalizeName d.name == normalizeName c.name) = some c →
      2 < (normalizeName c.name).length →
      normalizeName c.name ∉ seen → c ∈ dedupAux seen cs := by
  intro cs
  induction cs with
  | nil =>
    intro seen c hfind
    simp at hfind
  | cons d tl ih =>
    intro seen c hfind hlen hnot
    by_cases hd : (normalizeName d.name == normalizeName c.name) = true
    · have hstep : List.find? (fun x => normalizeName x.name == normalizeName c.name)
          (d :: tl) = some d := List.find?_cons_of_pos tl hd
      rw [hstep] at hfind
      have hdc : d = c := by injection hfind
      subst hdc
      simp only [dedupAux]
      rw [if_pos ⟨hnot, hlen⟩]
      exact List.mem_cons_self _ _
    · have hstep : List.find? (fun x => normalizeName x.name == normalizeName c.name)
          (d :: tl) = List.find? (fun x => normalizeName x.name == normalizeName c.name) tl :=
        List.find?_cons_of_neg tl hd
      rw [hstep] at hfind
      have hne : normalizeName d.name ≠ normalizeName c.name := by simpa using hd
      simp only [dedupAux]
      split
      · have hnot2 : normalizeName c.name ∉ normalizeName d.name :: seen := by
          intro hmem
          rcases List.mem_cons.mp hmem with heq | hin
          · exact hne heq.symm
          · exact hnot hin
        exact List.mem_cons_of_mem _ (ih _ _ hfind hlen hnot2)
      · exact ih _ _ hfind hlen hnot

/-! ## Non-emptiness helpers -/

theorem string_eq_empty_iff {s : String} : s = "" ↔ s.data = [] := by
  cases s with
  | mk d =>
    constructor
    · intro h
      have hd : ({ data := d } : String) = ⟨[]⟩ := h
      injection hd
    · intro h
      have hd : d = [] := h
      rw [hd]

theorem append_ne_empty_left {s : String} (t : String) (h : s ≠ "") : s ++ t ≠ "" := by
  intro habs
  rw [string_eq_empty_iff, String.data_append, List.append_eq_nil] at habs
  exact h (string_eq_empty_iff.mpr habs.1)

theorem joinSep_ne_empty (sep : String) :
    ∀ (l : List String), l ≠ [] → (∀ x ∈ l, x ≠ "") → joinSep sep l ≠ "" := by
  intro l
  induction l with
  | nil => intro h; exact absurd rfl h
  | cons s rest ih =>
    intro _ hall
    cases rest with
    | nil => exact hall s (List.mem_cons_self _ _)
    | cons t ts =>
      show s ++ sep ++ joinSep sep (t :: ts) ≠ ""
      exact append_ne_empty_left _
        (append_ne_empty_left _ (hall s (List.mem_cons_self _ _)))

theorem strTake_ne_empty {s : String} {n : Nat} (hn : 0 < n) (h : s ≠ "") :
    strTake s n ≠ "" := by
  intro habs
  rw [string_eq_empty_iff] at habs
  have hd : s.data.take n = [] := habs
  rw [List.take_eq_nil_iff] at hd
  rcases hd with h0 | hnil
  · omega
  · exact h (string_eq_empty_iff.mpr hnil)

theorem take_ne_nil_of_ne_nil {α : Type} {l : List α} {n : Nat} (hn : 0 < n)
    (h : l ≠ []) : l.take n ≠ [] := by
  intro habs
  rw [List.take_eq_nil_iff] at habs
  rcases habs with h0 | hnil
  · omega
  · exact h hnil

/-! ## Agent result evaluation lemmas -/

theorem applyUpdate_wa_none (p : Profile) (u : String) (md : Option String)
    (pm : List (List String)) :
    applyUpdate p (website_analysis_agent u none md pm) =
      { p with
        website := u
        business_model := "Unknown"
        pricing := "Unknown"
        product := "Unknown"
        api_integration := "Unknown" } := rfl

theorem applyUpdate_wa_some (p : Profile) (u pg : String) (md : Option String)
    (pm : List (List String)) :
    applyUpdate p (website_analysis_agent u (some pg) md pm) =
      { p with
        website := u
        business_model := waBusinessModel (lowerStr pg)
        pricing := waPricing pm
        product := waProduct md
        api_integration := waApi (lowerStr pg) } := rfl

theorem applyUpdate_fallback (p : Profile) (n : String) (sd : SearchData) :
    applyUpdate p (enhanced_fallback_analysis n sd) =
      { p with
        ai_powered_legal_chatbot := aiVerdict (aiScore n sd)
        stage := fallbackStage sd.news_mentions sd.corporate_data
        multilingual_support := "Unknown"
        mobile_web_accessibility := "Unknown"
        free_tier := "Unknown"
        subscription_based := "Unknown"
        target_audience := "Unknown"
        coverage := fallbackCoverage sd
        founding_team_rating := "3"
        direct_indirect := "Unknown"
        comment := fallbackComment n sd } := rfl

theorem applyUpdate_funding (p : Profile) (pages : List (Option String)) :
    applyUpdate p (funding_research_agent pages) =
      { p with
        fundraising_stage := (fundingResult pages).1
        stage := (fundingResult pages).2 } := rfl

theorem applyUpdate_comp (p : Profile) (pages : List (Option CompPage)) :
    applyUpdate p (competition_analysis_agent pages) =
      { p with
        partnerships_integrations := (compResult pages).1
        user_base_growth_rate := (compResult pages).2 } := rfl

theorem llm_agent_none {n : String} {sd : SearchData} {ats : List LlmAttempt}
    (h : call_groq_llm ats = none) :
    llm_research_agent n sd ats = enhanced_fallback_analysis n sd := by
  rw [llm_research_agent, h]

theorem llm_agent_some {n : String} {sd : SearchData} {ats : List LlmAttempt}
    {j : Json} (h : call_groq_llm ats = some j) :
    llm_research_agent n sd ats = j := by
  rw [llm_research_agent, h]

/-! ## Value non-emptiness of the agents -/

theorem waBusinessModel_ne (t : String) : waBusinessModel t ≠ "" := by
  unfold waBusinessModel
  split
  · decide
  · split
    · decide
    · split <;> decide

theorem waApi_ne (t : String) : waApi t ≠ "" := by
  unfold waApi
  split <;> decide

theorem waPricing_ne (pm : List (List String))
    (h : ∀ m ∈ pm, ∀ x ∈ m, x ≠ "") : waPricing pm ≠ "" := by
  unfold waPricing
  cases hfind : pm.find? (fun m => !m.isEmpty) with
  | none => decide
  | some m =>
    have hmem := List.mem_of_find?_eq_some hfind
    have hp := List.find?_some hfind
    have hm : m ≠ [] := by
      intro hnil
      rw [hnil] at hp
      simp at hp
    apply joinSep_ne_empty
    · exact take_ne_nil_of_ne_nil (by omega) hm
    · intro x hx
      exact h m hmem x (List.take_subset _ _ hx)

theorem waProduct_ne (md : Option String) (h : ∀ d, md = some d → d ≠ "") :
    waProduct md ≠ "" := by
  cases md with
  | none => decide
  | some d => exact strTake_ne_empty (by omega) (h d rfl)

theorem aiVerdict_ne (n : Nat) : aiVerdict n ≠ "" := by
  unfold aiVerdict
  split
  · decide
  · split <;> decide

theorem fundingStep_ne {fd : String × String} (page : Option String)
    (h1 : fd.1 ≠ "") (h2 : fd.2 ≠ "") :
    (fundingStep fd page).1 ≠ "" ∧ (fundingStep fd page).2 ≠ "" := by
  cases page with
  | none => exact ⟨h1, h2⟩
  | some pg =>
    simp only [fundingStep]
    split
    · exact ⟨by decide, by decide⟩
    · split
      · exact ⟨by decide, by decide⟩
      · split
        · exact ⟨by decide, by decide⟩
        · split
          · exact ⟨by decide, by decide⟩
          · split
            · exact ⟨by decide, by decide⟩
            · exact ⟨h1, h2⟩

theorem fundingResult_ne (pages : List (Option String)) :
    (fundingResult pages).1 ≠ "" ∧ (fundingResult pages).2 ≠ "" := by
  suffices hgen : ∀ (fd : String × String), fd.1 ≠ "" → fd.2 ≠ "" →
      (pages.foldl fundingStep fd).1 ≠ "" ∧ (pages.foldl fundingStep fd).2 ≠ "" by
    exact hgen ("Unknown", "Unknown") (by decide) (by decide)
  induction pages with
  | nil => intro fd h1 h2; exact ⟨h1, h2⟩
  | cons pg rest ih =>
    intro fd h1 h2
    have hstep := fundingStep_ne pg h1 h2
    exact ih _ hstep.1 hstep.2

theorem compStep_ne {cd : String × String} (page : Option CompPage)
    (hp : ∀ p, page = some p →
      (∀ x ∈ p.partnerships, x ≠ "") ∧ (∀ x ∈ p.userMetrics, x ≠ ""))
    (h1 : cd.1 ≠ "") (h2 : cd.2 ≠ "") :
    (compStep cd page).1 ≠ "" ∧ (compStep cd page).2 ≠ "" := by
  cases page with
  | none => exact ⟨h1, h2⟩
  | some p =>
    obtain ⟨hpart, hmet⟩ := hp p rfl
    simp only [compStep]
    by_cases hpn : p.partnerships ≠ []
    · rw [if_pos hpn]
      have hjoin : joinSep ", " p.partnerships ≠ "" :=
        joinSep_ne_empty _ _ hpn hpart
      by_cases hmn : p.userMetrics ≠ []
      · rw [if_pos hmn]
        refine ⟨hjoin, joinSep_ne_empty _ _ (take_ne_nil_of_ne_nil (by omega) hmn) ?_⟩
        intro x hx
        exact hmet x (List.take_subset _ _ hx)
      · rw [if_neg hmn]
        exact ⟨hjoin, h2⟩
    · rw [if_neg hpn]
      by_cases hmn : p.userMetrics ≠ []
      · rw [if_pos hmn]
        refine ⟨h1, joinSep_ne_empty _ _ (take_ne_nil_of_ne_nil (by omega) hmn) ?_⟩
        intro x hx
        exact hmet x (List.take_subset _ _ hx)
      · rw [if_neg hmn]
        exact ⟨h1, h2⟩

theorem compResult_ne :
    ∀ (pages : List (Option CompPage)),
      (∀ pg ∈ pages, ∀ p, pg = some p →
        (∀ x ∈ p.partnerships, x ≠ "") ∧ (∀ x ∈ p.userMetrics, x ≠ "")) →
      (compResult pages).1 ≠ "" ∧ (compResult pages).2 ≠ "" := by
  suffices hgen : ∀ (pages : List (Option CompPage)) (cd : String × String),
      (∀ pg ∈ pages, ∀ p, pg = some p →
        (∀ x ∈ p.partnerships, x ≠ "") ∧ (∀ x ∈ p.userMetrics, x ≠ "")) →
      cd.1 ≠ "" → cd.2 ≠ "" →
      (pages.foldl compStep cd).1 ≠ "" ∧ (pages.foldl compStep cd).2 ≠ "" by
    intro pages hp
    exact hgen pages ("Unknown", "Unknown") hp (by decide) (by decide)
  intro pages
  induction pages with
  | nil => intro cd _ h1 h2; exact ⟨h1, h2⟩
  | cons pg rest ih =>
    intro cd hp h1 h2
    have hstep := compStep_ne pg (hp pg (List.mem_cons_self _ _)) h1 h2
    exact ih _ (fun q hq => hp q (List.mem_cons_of_mem _ hq)) hstep.1 hstep.2

theorem jurisdictionRegion_mem (corp : Option CorpRecord) :
    ∀ x ∈ jurisdictionRegion corp, x ≠ "" := by
  intro x hx
  cases corp with
  | none => simp [jurisdictionRegion] at hx
  | some r =>
    simp only [jurisdictionRegion] at hx
    split at hx
    · split at hx
      · simp at hx
        subst hx
        decide
      · split at hx
        · simp at hx
          subst hx
          decide
        · split at hx
          · simp at hx
            subst hx
            decide
          · simp at hx
    · simp at hx

theorem textRegion_mem (t : String) : ∀ x ∈ textRegion t, x ≠ "" := by
  intro x hx
  simp only [textRegion] at hx
  split at hx
  · simp at hx
    subst hx
    decide
  · split at hx
    · simp at hx
      subst hx
      decide
    · split at hx
      · simp at hx
        subst hx
        decide
      · simp at hx

theorem coverageIndicators_mem (sd : SearchData) :
    ∀ x ∈ coverageIndicators sd, x ≠ "" := by
  intro x hx
  rw [coverageIndicators, List.mem_append] at hx
  rcases hx with hj | ht
  · exact jurisdictionRegion_mem _ x hj
  · exact textRegion_mem _ x ht

theorem dedupFirstAux_subset :
    ∀ (l : List String) (seen : List String) (x : String),
      x ∈ dedupFirstAux seen l → x ∈ l := by
  intro l
  induction l with
  | nil => intro seen x hx; simp [dedupFirstAux] at hx
  | cons s rest ih =>
    intro seen x hx
    simp only [dedupFirstAux] at hx
    split at hx
    · exact List.mem_cons_of_mem _ (ih seen x hx)
    · rcases List.mem_cons.mp hx with rfl | hmem
      · exact List.mem_cons_self _ _
      · exact List.mem_cons_of_mem _ (ih _ x hmem)

theorem dedupFirst_ne_nil (l : List String) (h : l ≠ []) : dedupFirstAux [] l ≠ [] := by
  cases l with
  | nil => exact absurd rfl h
  | cons s rest =>
    simp only [dedupFirstAux]
    rw [if_neg (List.not_mem_nil s)]
    exact List.cons_ne_nil _ _

theorem unknown_ne : ("Unknown" : String) ≠ "" := by decide

theorem three_ne : ("3" : String) ≠ "" := by decide

theorem fallbackCoverage_ne (sd : SearchData) : fallbackCoverage sd ≠ "" := by
  show (if coverageIndicators sd ≠ [] then
    joinSep "/" (dedupFirstAux [] (coverageIndicators sd)) else "Unknown") ≠ ""
  split
  · next hne =>
    apply joinSep_ne_empty
    · exact dedupFirst_ne_nil _ hne
    · intro x hx
      exact coverageIndicators_mem sd x (dedupFirstAux_subset _ _ _ hx)
  · decide

theorem fallbackBase_ne (n : String) : fallbackBase n ≠ "" := by
  rw [fallbackBase]
  exact append_ne_empty_left _ (by decide)

theorem fallbackComment_ne (n : String) (sd : SearchData) :
    fallbackComment n sd ≠ "" := by
  simp only [fallbackComment]
  exact append_ne_empty_left _ (fallbackBase_ne n)

/-! ## Claim C1 -/

theorem research_unfold (c : Candidate) (ts : String) (io : AdapterInputs) :
    research_single_company c ts io =
      applyUpdate (applyUpdate (applyUpdate
        (if (sdOf io).website ≠ "" then
          applyUpdate (initProfile c ts)
            (website_analysis_agent (sdOf io).website io.page io.metaDesc
              io.pricingMatches)
        else initProfile c ts)
        (llm_research_agent c.name (sdOf io) io.llm))
        (funding_research_agent io.fundingPages))
        (competition_analysis_agent io.compPages) := rfl

/-- C1 (amended): on the fallback path with a website found, the 17
enrichment attributes other than `product` are nonempty strings (a real
value or the sentinel `"Unknown"`), and `product` is exactly `"Unknown"`
when no page loads or the page has no description meta tag, and otherwise
the meta content truncated to 200 characters — hence empty exactly when
that content is empty.  Key presence always holds structurally.  The
hypotheses on the regex extractions record that the captures are nonempty
strings, as matches of `€\d+` / `\$\d+` / `£\d+` / `\d+/month` /
`\d+/year` / `(\w+)` / `\d+`-based metric patterns necessarily are. -/
theorem profile_attributes_amended (c : Candidate) (ts : String) (io : AdapterInputs)
    (hl : call_groq_llm io.llm = none)
    (hw : (sdOf io).website ≠ "")
    (hpm : ∀ m ∈ io.pricingMatches, ∀ x ∈ m, x ≠ "")
    (hcp : ∀ pg ∈ io.compPages, ∀ p, pg = some p →
      (∀ x ∈ p.partnerships, x ≠ "") ∧ (∀ x ∈ p.userMetrics, x ≠ "")) :
    (research_single_company c ts io).business_model ≠ "" ∧
    (research_single_company c ts io).ai_powered_legal_chatbot ≠ "" ∧
    (research_single_company c ts io).stage ≠ "" ∧
    (research_single_company c ts io).fundraising_stage ≠ "" ∧
    (research_single_company c ts io).multilingual_support ≠ "" ∧
    (research_single_company c ts io).mobile_web_accessibility ≠ "" ∧
    (research_single_company c ts io).api_integration ≠ "" ∧
    (research_single_company c ts io).free_tier ≠ "" ∧
    (research_single_company c ts io).subscription_based ≠ "" ∧
    (research_single_company c ts io).pricing ≠ "" ∧
    (research_single_company c ts io).target_audience ≠ "" ∧
    (research_single_company c ts io).user_base_growth_rate ≠ "" ∧
    (research_single_company c ts io).partnerships_integrations ≠ "" ∧
    (research_single_company c ts io).coverage ≠ "" ∧
    (research_single_company c ts io).product =
      (match io.page with
        | none => "Unknown"
        | some _ => waProduct io.metaDesc) ∧
    (∀ d, io.metaDesc = some d → d ≠ "" →
      (research_single_company c ts io).product ≠ "") ∧
    (io.metaDesc = none → (research_single_company c ts io).product = "Unknown") ∧
    (research_single_company c ts io).founding_team_rating ≠ "" ∧
    (research_single_company c ts io).direct_indirect ≠ "" ∧
    (research_single_company c ts io).comment ≠ "" := by
  have hcomp := compResult_ne io.compPages hcp
  have hfund := fundingResult_ne io.fundingPages
  cases hpg : io.page with
  | none =>
    rw [research_unfold, if_pos hw, hpg, llm_agent_none hl, applyUpdate_wa_none,
      applyUpdate_fallback, applyUpdate_funding, applyUpdate_comp]
    exact ⟨unknown_ne, aiVerdict_ne _, hfund.2, hfund.1, unknown_ne, unknown_ne,
      unknown_ne, unknown_ne, unknown_ne, unknown_ne, unknown_ne, hcomp.2, hcomp.1,
      fallbackCoverage_ne _, rfl, fun _ _ _ => unknown_ne, fun _ => rfl,
      three_ne, unknown_ne, fallbackComment_ne _ _⟩
  | some pg =>
    rw [research_unfold, if_pos hw, hpg, llm_agent_none hl, applyUpdate_wa_some,
      applyUpdate_fallback, applyUpdate_funding, applyUpdate_comp]
    refine ⟨waBusinessModel_ne _, aiVerdict_ne _, hfund.2, hfund.1, unknown_ne,
      unknown_ne, waApi_ne _, unknown_ne, unknown_ne, waPricing_ne _ hpm, unknown_ne,
      hcomp.2, hcomp.1, fallbackCoverage_ne _, rfl, ?_, ?_,
      three_ne, unknown_ne, fallbackComment_ne _ _⟩
    · intro d hd hdne
      show waProduct io.metaDesc ≠ ""
      rw [hd]
      exact strTake_ne_empty (by omega) hdne
    · intro hmd
      show waProduct io.metaDesc = "Unknown"
      rw [hmd]
      rfl

/-- C1 witness: a concrete fallback-path run with a website found; the
hypotheses of `profile_attributes_amended` hold and every attribute of the
built profile is nonempty, `product` taking the meta-description value. -/
theorem profile_attributes_amended_witness :
    call_groq_llm ioWitness.llm = none ∧
    (sdOf ioWitness).website ≠ "" ∧
    ((research_single_company { name := "TestCo" } "2025-08-01" ioWitness).business_model ≠ "" ∧
     (research_single_company { name := "TestCo" } "2025-08-01" ioWitness).ai_powered_legal_chatbot ≠ "" ∧
     (research_single_company { name := "TestCo" } "2025-08-01" ioWitness).stage ≠ "" ∧
     (research_single_company { name := "TestCo" } "2025-08-01" ioWitness).fundraising_stage ≠ "" ∧
     (research_single_company { name := "TestCo" } "2025-08-01" ioWitness).multilingual_support ≠ "" ∧
     (research_single_company { name := "TestCo" } "2025-08-01" ioWitness).mobile_web_accessibility ≠ "" ∧
     (research_single_company { name := "TestCo" } "2025-08-01" ioWitness).api_integration ≠ "" ∧
     (research_single_company { name := "TestCo" } "2025-08-01" ioWitness).free_tier ≠ "" ∧
     (research_single_company { name := "TestCo" } "2025-08-01" ioWitness).subscription_based ≠ "" ∧
     (research_single_company { name := "TestCo" } "2025-08-01" ioWitness).pricing ≠ "" ∧
     (research_single_company { name := "TestCo" } "2025-08-01" ioWitness).target_audience ≠ "" ∧
     (research_single_company { name := "TestCo" } "2025-08-01" ioWitness).user_base_growth_rate ≠ "" ∧
     (research_single_company { name := "TestCo" } "2025-08-01" ioWitness).partnerships_integrations ≠ "" ∧
     (research_single_company { name := "TestCo" } "2025-08-01" ioWitness).coverage ≠ "" ∧
     (research_single_company { name := "TestCo" } "2025-08-01" ioWitness).product =
       (match ioWitness.page with
         | none => "Unknown"
         | some _ => waProduct ioWitness.metaDesc) ∧
     (∀ d, ioWitness.metaDesc = some d → d ≠ "" →
       (research_single_company { name := "TestCo" } "2025-08-01" ioWitness).product ≠ "") ∧
     (ioWitness.metaDesc = none →
       (research_single_company { name := "TestCo" } "2025-08-01" ioWitness).product = "Unknown") ∧
     (research_single_company { name := "TestCo" } "2025-08-01" ioWitness).founding_team_rating ≠ "" ∧
     (research_single_company { name := "TestCo" } "2025-08-01" ioWitness).direct_indirect ≠ "" ∧
     (research_single_company { name := "TestCo" } "2025-08-01" ioWitness).comment ≠ "") :=
  ⟨rfl, by decide,
    profile_attributes_amended { name := "TestCo" } "2025-08-01" ioWitness rfl
      (by decide)
      (by decide)
      (fun pg hpg => by
        have hpg' : pg = some { partnerships := ["Clio"], userMetrics := ["1,000"] } :=
          List.mem_singleton.mp hpg
        subst hpg'
        intro p hp
        have hp' : p = { partnerships := ["Clio"], userMetrics := ["1,000"] } := by
          injection hp with hh
          exact hh.symm
        subst hp'
        exact ⟨by decide, by decide⟩)⟩

/-- C1 counterexample: with every adapter failing (in particular no website
found), the built profile binds `business_model` to the empty string; and
even with a website found, a page whose description meta tag has empty
content leaves `product` empty.  Both values are neither real values nor
the sentinel `"Unknown"` — refuting the claim that no value is ever
empty. -/
theorem profile_attributes_cex :
    (research_single_company { name := "TestCo" } "2025-08-01T00:00:00" {}).business_model
      = "" ∧
    (research_single_company { name := "TestCo" } "2025-08-01T00:00:00" {}).website = "" ∧
    (sdOf ioEmptyMeta).website ≠ "" ∧
    (research_single_company { name := "TestCo" } "2025-08-01T00:00:00" ioEmptyMeta).product
      = "" ∧
    ("" : String) ≠ "Unknown" :=
  ⟨rfl, rfl, by decide, rfl, by decide⟩

/-! ## Claim C2 -/

/-- C2 counterexample: a parseable JSON object whose key set differs from
the declared enrichment keys (it fails the spec's contract) is *not*
diverted to the fallback path — `llm_research_agent` returns it as-is. -/
theorem llm_contract_cex :
    specContractOk [("foo", "bar")] = false ∧
    llm_research_agent "TestCo" {} [LlmAttempt.success (some [("foo", "bar")])] =
      [("foo", "bar")] ∧
    llm_research_agent "TestCo" {} [LlmAttempt.success (some [("foo", "bar")])] ≠
      enhanced_fallback_analysis "TestCo" {} :=
  ⟨by decide, rfl, by decide⟩

/-- C2 (amended): the only validation is JSON parseability — the first
attempt whose body parses is returned verbatim, whatever its key set;
invalid JSON and retryable failures retry, a fatal (auth / non-retryable)
failure or retry exhaustion yields `none`, and exactly the `none` outcome
switches the engine to the fallback heuristic. -/
theorem llm_contract_amended :
    (∀ (n : String) (sd : SearchData) (ats : List LlmAttempt) (j : Json),
      call_groq_llm ats = some j → llm_research_agent n sd ats = j) ∧
    (∀ (n : String) (sd : SearchData) (ats : List LlmAttempt),
      call_groq_llm ats = none →
      llm_research_agent n sd ats = enhanced_fallback_analysis n sd) ∧
    (∀ (j : Json) (rest : List LlmAttempt),
      call_groq_llm (LlmAttempt.success (some j) :: rest) = some j) ∧
    (∀ rest : List LlmAttempt,
      call_groq_llm (LlmAttempt.success none :: rest) = call_groq_llm rest) ∧
    (∀ rest : List LlmAttempt, call_groq_llm (LlmAttempt.fatal :: rest) = none) ∧
    (∀ rest : List LlmAttempt,
      call_groq_llm (LlmAttempt.retryable :: rest) = call_groq_llm rest) ∧
    call_groq_llm [] = none :=
  ⟨fun _ _ _ _ h => llm_agent_some h, fun _ _ _ h => llm_agent_none h,
    fun _ _ => rfl, fun _ => rfl, fun _ => rfl, fun _ => rfl, rfl⟩

/-- C2 witness: a successful parse is passed through unvalidated. -/
theorem llm_contract_amended_witness :
    call_groq_llm [LlmAttempt.success (some [("stage", "Growth")])] =
      some [("stage", "Growth")] ∧
    llm_research_agent "X" {} [LlmAttempt.success (some [("stage", "Growth")])] =
      [("stage", "Growth")] :=
  ⟨rfl, llm_contract_amended.1 "X" {} _ _ rfl⟩

/-! ## Claim C3 -/

/-- C3 counterexample: the claim's own example candidate (direct relevance,
`"API"` source tag, 150 stars) scores 3+1+1 = 5 points, and 5 points maps
to `"very_high"` — not to `"high"` as the claim asserts. -/
theorem confidence_scoring_cex :
    confidenceScore { name := "Legal AI Corp", source := "GitHub API", github_stars := 150 } = 5 ∧
    relevanceOf { name := "Legal AI Corp", source := "GitHub API", github_stars := 150 } = "direct" ∧
    (classify_company { name := "Legal AI Corp", source := "GitHub API", github_stars := 150 }).2 = "very_high" ∧
    (classify_company { name := "Legal AI Corp", source := "GitHub API", github_stars := 150 }).2 ≠ "high" :=
  ⟨by decide, by decide, by decide, by decide⟩

/-- C3 (amended): the point score is relevance base points (direct=3,
indirect=2, peripheral=1) plus one bonus each for an `"API"` source tag,
stars > 100 and votes > 50, mapped through the cut points ≥4 very_high,
≥3 high, ≥2 medium, else low; the example candidate therefore receives
`"very_high"`, and a bonustless peripheral candidate `"low"`. -/
theorem confidence_scoring_amended :
    (∀ c : Candidate,
      confidenceScore c =
        (if relevanceOf c = "direct" then 3
          else if relevanceOf c = "indirect" then 2 else 1)
        + (if strContains c.source "API" then 1 else 0)
        + (if 100 < c.github_stars then 1 else 0)
        + (if 50 < c.votes then 1 else 0)) ∧
    (∀ c : Candidate,
      (classify_company c).2 =
        (if 4 ≤ confidenceScore c then "very_high"
          else if 3 ≤ confidenceScore c then "high"
          else if 2 ≤ confidenceScore c then "medium" else "low")) ∧
    classify_company { name := "Legal AI Corp", source := "GitHub API", github_stars := 150 } = ("direct", "very_high") ∧
    classify_company { name := "Generic Analytics" } = ("peripheral", "low") :=
  ⟨fun _ => rfl, fun _ => rfl, by decide, by decide⟩

/-! ## Claim C4 -/

/-- C4 counterexample: the normalization is not idempotent — stripping the
punctuation of `"a . b"` exposes a doubled space that only a second pass
collapses — and `"harvey-ai "` does not normalize equal to `"Harvey AI"`
(the hyphen is deleted, not replaced by a space). -/
theorem normalize_idempotent_cex :
    normalizeName "a . b" = "a  b" ∧
    normalizeName (normalizeName "a . b") = "a b" ∧
    normalizeName (normalizeName "a . b") ≠ normalizeName "a . b" ∧
    normalizeName "harvey-ai " ≠ normalizeName "Harvey AI" :=
  ⟨by decide, by decide, by decide, by decide⟩

/-- C4 (amended): normalization is idempotent on punctuation-free strings
(in general a punctuation deletion can expose whitespace that only the next
pass collapses or strips); `"Harvey AI"` and `"HARVEY AI"` normalize to the
same `"harvey ai"`, while `"harvey-ai "` normalizes to `"harveyai"`, which
differs. -/
theorem normalize_idempotent_amended :
    (∀ s : String, punctFree s.data = true →
      normalizeName (normalizeName s) = normalizeName s) ∧
    normalizeName "Harvey AI" = normalizeName "HARVEY AI" ∧
    normalizeName "Harvey AI" = "harvey ai" ∧
    normalizeName "harvey-ai " = "harveyai" ∧
    normalizeName "harvey-ai " ≠ normalizeName "Harvey AI" :=
  ⟨normalizeName_idem_of_punctFree, by decide, by decide, by decide, by decide⟩

/-- C4 witness: idempotence applied at the punctuation-free input
`"Harvey AI"`. -/
theorem normalize_idempotent_amended_witness :
    punctFree "Harvey AI".data = true ∧
    normalizeName (normalizeName "Harvey AI") = normalizeName "Harvey AI" :=
  ⟨by decide, normalize_idempotent_amended.1 "Harvey AI" (by decide)⟩

/-! ## Claim C5 -/

/-- C5 counterexample: a candidate whose normalized name has length ≤ 2 is
dropped even though it is the sole (hence first) occurrence of its
normalized name, so "the first occurrence of each normalized name is
retained" fails as stated. -/
theorem dedupe_first_occurrence_cex :
    deduplicate_companies [{ name := "AI" }] = [] ∧
    List.find? (fun d => normalizeName d.name == normalizeName "AI")
      [({ name := "AI" } : Candidate)] = some { name := "AI" } ∧
    ({ name := "AI" } : Candidate) ∉ deduplicate_companies [{ name := "AI" }] :=
  ⟨by decide, by decide, by decide⟩

/-- C5 (amended): deduplication keys candidates by normalized name, keeps
first-seen order (the output is a sublist of the input), retains the first
occurrence of each normalized name *longer than two characters*, drops
every later candidate with an already-seen normalized name, and on the
claim's example keeps exactly `"Harvey AI"` and `"DoNotPay"`. -/
theorem dedupe_first_occurrence_amended :
    (∀ cs : List Candidate, (deduplicate_companies cs).Sublist cs) ∧
    (∀ (cs : List Candidate) (c : Candidate),
      cs.find? (fun d => normalizeName d.name == normalizeName c.name) = some c →
      2 < (normalizeName c.name).length →
      c ∈ deduplicate_companies cs) ∧
    (∀ (cs : List Candidate) (c : Candidate), c ∈ deduplicate_companies cs →
      cs.find? (fun d => normalizeName d.name == normalizeName c.name) = some c) ∧
    deduplicate_companies
        [{ name := "Harvey AI" }, { name := "harvey ai" }, { name := "DoNotPay" }] =
      [{ name := "Harvey AI" }, { name := "DoNotPay" }] :=
  ⟨fun cs => dedupAux_sublist cs [],
    fun cs c hf hl => dedupAux_complete cs [] c hf hl (List.not_mem_nil _),
    fun cs c hm => (dedupAux_mem cs [] c hm).2.2,
    by decide⟩

/-- C5 witness: the first-occurrence-retained part applied at a concrete
singleton list. -/
theorem dedupe_first_occurrence_amended_witness :
    List.find? (fun d => normalizeName d.name ==
        normalizeName ({ name := "DoNotPay" } : Candidate).name)
      [({ name := "DoNotPay" } : Candidate)] = some { name := "DoNotPay" } ∧
    2 < (normalizeName ({ name := "DoNotPay" } : Candidate).name).length ∧
    ({ name := "DoNotPay" } : Candidate) ∈
      deduplicate_companies [{ name := "DoNotPay" }] :=
  ⟨by decide, by decide,
    dedupe_first_occurrence_amended.2.1 _ _ (by decide) (by decide)⟩

/-! ## Claim C6 -/

/-- C6: single-adapter failures are local.  A failed news / discussion /
web-search / code-hosting adapter is observationally identical to one that
returned the empty fragment; a failed registry adapter leaves the empty
registry record; and even with *every* adapter failing (all arguments at
their `none` defaults) the profile build completes, with each fragment at
its default and every fallback attribute populated. -/
theorem adapter_failure_isolated :
    (∀ (ddg : Option DdgResult) (hn : Option (List Discussion))
        (corp : Option CorpRecord) (gh : Option GithubActivity)
        (fb : Option DdgResult),
      web_search_agent ddg none hn corp gh fb =
        web_search_agent ddg (some []) hn corp gh fb) ∧
    (∀ (ddg : Option DdgResult) (news : Option (List Article))
        (corp : Option CorpRecord) (gh : Option GithubActivity)
        (fb : Option DdgResult),
      web_search_agent ddg news none corp gh fb =
        web_search_agent ddg news (some []) corp gh fb) ∧
    (∀ (news : Option (List Article)) (hn : Option (List Discussion))
        (corp : Option CorpRecord) (gh : Option GithubActivity)
        (fb : Option DdgResult),
      web_search_agent none news hn corp gh fb =
        web_search_agent (some {}) news hn corp gh fb) ∧
    (∀ (ddg : Option DdgResult) (news : Option (List Article))
        (hn : Option (List Discussion)) (corp : Option CorpRecord)
        (fb : Option DdgResult),
      web_search_agent ddg news hn corp none fb =
        web_search_agent ddg news hn corp (some {}) fb) ∧
    (∀ (ddg : Option DdgResult) (news : Option (List Article))
        (hn : Option (List Discussion)) (gh : Option GithubActivity)
        (fb : Option DdgResult),
      (web_search_agent ddg news hn none gh fb).corporate_data = none) ∧
    (∀ (c : Candidate) (ts : String),
      (research_single_company c ts {}).competitor = c.name ∧
      (research_single_company c ts {}).website = "" ∧
      (research_single_company c ts {}).ai_powered_legal_chatbot =
        aiVerdict (aiScore c.name (sdOf {})) ∧
      (research_single_company c ts {}).stage = "Unknown" ∧
      (research_single_company c ts {}).fundraising_stage = "Unknown" ∧
      (research_single_company c ts {}).multilingual_support = "Unknown" ∧
      (research_single_company c ts {}).mobile_web_accessibility = "Unknown" ∧
      (research_single_company c ts {}).free_tier = "Unknown" ∧
      (research_single_company c ts {}).subscription_based = "Unknown" ∧
      (research_single_company c ts {}).target_audience = "Unknown" ∧
      (research_single_company c ts {}).user_base_growth_rate = "Unknown" ∧
      (research_single_company c ts {}).partnerships_integrations = "Unknown" ∧
      (research_single_company c ts {}).coverage = "Unknown" ∧
      (research_single_company c ts {}).founding_team_rating = "3" ∧
      (research_single_company c ts {}).direct_indirect = "Unknown" ∧
      (research_single_company c ts {}).comment = fallbackBase c.name) :=
  ⟨fun _ _ _ _ _ => rfl, fun _ _ _ _ _ => rfl, fun _ _ _ _ _ => rfl,
    fun _ _ _ _ _ => rfl, fun _ _ _ _ _ => rfl,
    fun _c _ts =>
      ⟨rfl, rfl, rfl, rfl, rfl, rfl, rfl, rfl, rfl, rfl, rfl, rfl, rfl, rfl, rfl,
        String.append_empty _⟩⟩

/-! ## Claim C7 -/

/-- C7 counterexample: with news "raised a Series B" the fallback does
classify `stage` as `"Growth"`, but it produces no `fundraising_stage` at
all — that key is absent from the fallback dict, and in a full run the
profile's `fundraising_stage` is the funding agent's `"Unknown"`, not
`"Series B"` as the claim asserts. -/
theorem fallback_funding_stage_cex :
    fallbackStage [{ title := "Company raised a Series B" }] none = "Growth" ∧
    (enhanced_fallback_analysis "X"
        { news_mentions := [{ title := "Company raised a Series B" }] }).lookup
      "fundraising_stage" = none ∧
    (research_single_company { name := "X" } "t"
        { news := some [{ title := "Company raised a Series B" }] }).fundraising_stage
      = "Unknown" ∧
    ("Unknown" : String) ≠ "Series B" :=
  ⟨by decide, rfl, by decide, by decide⟩

/-- C7 (amended): the fallback derives `stage` from news first — the first
news item with a funding keyword decides, mapping series c/d to
Established, series a/b to Growth, seed to Startup — and otherwise from the
registry incorporation year against reference year 2025 (≥8 years
Established, ≥4 Growth, else Startup).  A "raised a Series B" news item
yields stage `"Growth"`; incorporation 2015 with no funding news yields
`"Established"`.  The fallback does *not* set `fundraising_stage` (that key
comes from the separate funding agent). -/
theorem fallback_funding_stage_amended :
    (∀ (n : String) (sd : SearchData),
      (enhanced_fallback_analysis n sd).lookup "stage" =
        some (fallbackStage sd.news_mentions sd.corporate_data) ∧
      (enhanced_fallback_analysis n sd).lookup "fundraising_stage" = none) ∧
    (∀ (a : Article) (rest : List Article) (corp : Option CorpRecord),
      fundingKeyword a = true →
      fallbackStage (a :: rest) corp = (stageOfArticle a).getD "Unknown") ∧
    (∀ a : Article,
      (strContains (articleText a) "series c"
        || strContains (articleText a) "series d") = true →
      stageOfArticle a = some "Established") ∧
    (∀ a : Article,
      (strContains (articleText a) "series c"
        || strContains (articleText a) "series d") = false →
      (strContains (articleText a) "series a"
        || strContains (articleText a) "series b") = true →
      stageOfArticle a = some "Growth") ∧
    (∀ a : Article,
      (strContains (articleText a) "series c"
        || strContains (articleText a) "series d") = false →
      (strContains (articleText a) "series a"
        || strContains (articleText a) "series b") = false →
      strContains (articleText a) "seed" = true →
      stageOfArticle a = some "Startup") ∧
    (∀ (news : List Article) (r : CorpRecord) (y : Nat),
      (∀ a ∈ news, fundingKeyword a = false) →
      r.incorporation_date ≠ "" →
      parseYear4 r.incorporation_date = some y →
      fallbackStage news (some r) =
        (if (8 : Int) ≤ 2025 - (y : Int) then "Established"
          else if (4 : Int) ≤ 2025 - (y : Int) then "Growth" else "Startup")) ∧
    fallbackStage [{ title := "Company raised a Series B" }] none = "Growth" ∧
    fallbackStage [] (some { incorporation_date := "2015" }) = "Established" := by
  refine ⟨fun n sd => ⟨rfl, rfl⟩, ?_, ?_, ?_, ?_, ?_, by decide, by decide⟩
  · intro a rest corp h
    have hstep : List.find? fundingKeyword (a :: rest) = some a :=
      List.find?_cons_of_pos rest h
    rw [fallbackStage.eq_def, hstep]
  · intro a h
    rw [stageOfArticle]
    rw [if_pos h]
  · intro a hcd hab
    rw [stageOfArticle]
    rw [if_neg (by rw [hcd]; exact Bool.false_ne_true), if_pos hab]
  · intro a hcd hab hs
    rw [stageOfArticle]
    rw [if_neg (by rw [hcd]; exact Bool.false_ne_true),
      if_neg (by rw [hab]; exact Bool.false_ne_true), if_pos hs]
  · intro news r y hall hne hy
    have hnone : List.find? fundingKeyword news = none :=
      List.find?_eq_none.mpr fun a ha hka => by
        rw [hall a ha] at hka
        exact Bool.false_ne_true hka
    rw [fallbackStage.eq_def, hnone]
    show (if r.incorporation_date ≠ "" then
        match parseYear4 r.incorporation_date with
        | some y =>
          let years : Int := 2025 - (y : Int)
          if 8 ≤ years then "Established"
          else if 4 ≤ years then "Growth"
          else "Startup"
        | none => "Unknown"
      else "Unknown") = _
    rw [if_pos hne, hy]

/-- C7 witness: the news-first rule applied at the Series B article. -/
theorem fallback_funding_stage_amended_witness :
    fundingKeyword { title := "Company raised a Series B" } = true ∧
    fallbackStage [{ title := "Company raised a Series B" }] none =
      (stageOfArticle { title := "Company raised a Series B" }).getD "Unknown" :=
  ⟨by decide, fallback_funding_stage_amended.2.1 _ [] none (by decide)⟩

/-! ## Claim C8 -/

theorem bool_if_le {b b' : Bool} (k : Nat) (h : b = true → b' = true) :
    (if b then k else 0) ≤ (if b' then k else 0) := by
  cases b
  · simp
  · rw [h rfl]

theorem aiScore_mono {n n' : String} {sd sd' : SearchData}
    (h1 : aiNameInd n = true → aiNameInd n' = true)
    (h2 : aiSearchInd sd = true → aiSearchInd sd' = true)
    (h3 : aiNewsInd sd = true → aiNewsInd sd' = true)
    (h4 : aiRepoInd sd = true → aiRepoInd sd' = true) :
    aiScore n sd ≤ aiScore n' sd' := by
  unfold aiScore
  exact Nat.add_le_add (Nat.add_le_add (Nat.add_le_add
    (bool_if_le 2 h1) (bool_if_le 1 h2)) (bool_if_le 1 h3)) (bool_if_le 1 h4)

theorem verdictRank_aiVerdict (n : Nat) :
    verdictRank (aiVerdict n) = if 3 ≤ n then 2 else if 1 ≤ n then 1 else 0 := by
  by_cases h3 : 3 ≤ n
  · have hv : aiVerdict n = "Yes - multiple AI indicators found" := by
      rw [aiVerdict, if_pos h3]
    rw [hv, if_pos h3]
    decide
  · by_cases h1 : 1 ≤ n
    · have hv : aiVerdict n = "Possible - some AI indicators found" := by
        rw [aiVerdict, if_neg h3, if_pos h1]
      rw [hv, if_neg h3, if_pos h1]
      decide
    · have hv : aiVerdict n = "No - no clear AI indicators" := by
        rw [aiVerdict, if_neg h3, if_neg h1]
      rw [hv, if_neg h3, if_neg h1]
      decide

theorem verdictRank_mono {m n : Nat} (h : m ≤ n) :
    verdictRank (aiVerdict m) ≤ verdictRank (aiVerdict n) := by
  rw [verdictRank_aiVerdict, verdictRank_aiVerdict]
  by_cases h3 : 3 ≤ m
  · rw [if_pos h3, if_pos (le_trans h3 h)]
  · rw [if_neg h3]
    by_cases h1 : 1 ≤ m
    · rw [if_pos h1]
      by_cases h3' : 3 ≤ n
      · rw [if_pos h3']
        omega
      · rw [if_neg h3', if_pos (le_trans h1 h)]
    · rw [if_neg h1]
      omega

/-- C8: the fallback AI-capability classification is monotone.  Pointwise:
if each of the four indicators (name, search text, news, repositories) of
one bundle implies that of another, the score and the Yes/Possible/No
verdict rank do not decrease.  Adding text or items to a source — appending
to the search text or the company name, adding a news item or a repository
— never decreases the score; in particular adding a qualifying keyword
never downgrades the tier. -/
theorem ai_classification_monotone :
    (∀ (n n' : String) (sd sd' : SearchData),
      (aiNameInd n = true → aiNameInd n' = true) →
      (aiSearchInd sd = true → aiSearchInd sd' = true) →
      (aiNewsInd sd = true → aiNewsInd sd' = true) →
      (aiRepoInd sd = true → aiRepoInd sd' = true) →
      aiScore n sd ≤ aiScore n' sd' ∧
        verdictRank (aiVerdict (aiScore n sd)) ≤
          verdictRank (aiVerdict (aiScore n' sd'))) ∧
    (∀ (n : String) (sd : SearchData) (extra : String),
      aiScore n sd ≤
        aiScore n { sd with search_results := sd.search_results ++ extra }) ∧
    (∀ (n : String) (sd : SearchData) (a : Article),
      aiScore n sd ≤
        aiScore n { sd with news_mentions := sd.news_mentions ++ [a] }) ∧
    (∀ (n : String) (sd : SearchData) (r : Repo),
      aiScore n sd ≤
        aiScore n { sd with github_activity :=
          { sd.github_activity with
            public_repos := sd.github_activity.public_repos ++ [r] } }) ∧
    (∀ (n extra : String) (sd : SearchData),
      aiScore n sd ≤ aiScore (n ++ extra) sd) := by
  refine ⟨fun n n' sd sd' h1 h2 h3 h4 =>
      ⟨aiScore_mono h1 h2 h3 h4, verdictRank_mono (aiScore_mono h1 h2 h3 h4)⟩,
    ?_, ?_, ?_, ?_⟩
  · intro n sd extra
    refine aiScore_mono (fun h => h) ?_ (fun h => h) (fun h => h)
    intro h
    rw [aiSearchInd] at h ⊢
    show anyTerm _ (lowerStr (sd.search_results ++ extra)) = true
    rw [lowerStr_append]
    exact anyTerm_append _ h
  · intro n sd a
    refine aiScore_mono (fun h => h) (fun h => h) ?_ (fun h => h)
    intro h
    rw [aiNewsInd] at h ⊢
    show (sd.news_mentions ++ [a]).any _ = true
    rw [List.any_append, h]
    rfl
  · intro n sd r
    refine aiScore_mono (fun h => h) (fun h => h) (fun h => h) ?_
    intro h
    rw [aiRepoInd] at h ⊢
    show (sd.github_activity.public_repos ++ [r]).any _ = true
    rw [List.any_append, h]
    rfl
  · intro n extra sd
    refine aiScore_mono ?_ (fun h => h) (fun h => h) (fun h => h)
    intro h
    rw [aiNameInd] at h ⊢
    rw [lowerStr_append]
    exact anyTerm_append _ h

/-- C8 witness: monotonicity applied at a concrete pair of bundles. -/
theorem ai_classification_monotone_witness :
    (aiNameInd "Foo" = true → aiNameInd "Foo AI" = true) ∧
    aiScore "Foo" {} ≤ aiScore "Foo AI" {} ∧
    verdictRank (aiVerdict (aiScore "Foo" {})) ≤
      verdictRank (aiVerdict (aiScore "Foo AI" {})) :=
  ⟨fun _ => by decide,
    (ai_classification_monotone.1 "Foo" "Foo AI" {} {} (fun _ => by decide)
      (fun h => h) (fun h => h) (fun h => h)).1,
    (ai_classification_monotone.1 "Foo" "Foo AI" {} {} (fun _ => by decide)
      (fun h => h) (fun h => h) (fun h => h)).2⟩

/-! ## Claim C9 -/

/-- C9 counterexample: a bundle whose text matches both the Europe keywords
(`"european"`) and the Global keywords (`"worldwide"`) gets coverage
`"Europe"` only — the matched region `"Global"` of the claim's union is
absent, because the text contributes at most one region via an if/elif
chain. -/
theorem coverage_union_cex :
    fallbackCoverage { search_results := "European worldwide presence" } = "Europe" ∧
    strContains (coverageAllText { search_results := "European worldwide presence" })
      "worldwide" = true ∧
    specCoverageRegions { search_results := "European worldwide presence" } =
      ["Europe", "Global"] ∧
    strContains (fallbackCoverage { search_results := "European worldwide presence" })
      "Global" = false :=
  ⟨by decide, by decide, by decide, by decide⟩

/-- C9 (amended): coverage is the '/'-joined deduplicated indicator list,
where the registry jurisdiction contributes at most one region
(Germany, else Europe, else Global/US) and the combined search+news text
contributes at most one region (Germany, else Europe, else Global) — not
the full union of matched regions; discussion and repository texts are not
scanned at all; with no indicator the value is `"Unknown"`. -/
theorem coverage_union_amended :
    (∀ corp : Option CorpRecord, (jurisdictionRegion corp).length ≤ 1) ∧
    (∀ t : String, (textRegion t).length ≤ 1) ∧
    (∀ (sd : SearchData) (hn2 : List Discussion),
      fallbackCoverage { sd with tech_mentions := hn2 } = fallbackCoverage sd) ∧
    (∀ (sd : SearchData) (gh2 : GithubActivity),
      fallbackCoverage { sd with github_activity := gh2 } = fallbackCoverage sd) ∧
    (∀ (sd : SearchData) (r : String),
      coverageIndicators sd = [r] → fallbackCoverage sd = r) ∧
    (∀ (sd : SearchData) (r : String),
      coverageIndicators sd = [r, r] → fallbackCoverage sd = r) ∧
    (∀ sd : SearchData, coverageIndicators sd = [] →
      fallbackCoverage sd = "Unknown") := by
  refine ⟨?_, ?_, fun sd hn2 => rfl, fun sd gh2 => rfl, ?_, ?_, ?_⟩
  · intro corp
    cases corp with
    | none => simp [jurisdictionRegion]
    | some r =>
      simp only [jurisdictionRegion]
      split
      · split
        · simp
        · split
          · simp
          · split <;> simp
      · simp
  · intro t
    simp only [textRegion]
    split
    · simp
    · split
      · simp
      · split <;> simp
  · intro sd r h
    show (if coverageIndicators sd ≠ [] then
      joinSep "/" (dedupFirstAux [] (coverageIndicators sd)) else "Unknown") = r
    rw [h]
    rw [if_pos (List.cons_ne_nil r [])]
    simp [dedupFirstAux, joinSep]
  · intro sd r h
    show (if coverageIndicators sd ≠ [] then
      joinSep "/" (dedupFirstAux [] (coverageIndicators sd)) else "Unknown") = r
    rw [h]
    rw [if_pos (List.cons_ne_nil r [r])]
    simp [dedupFirstAux, joinSep]
  · intro sd h
    show (if coverageIndicators sd ≠ [] then
      joinSep "/" (dedupFirstAux [] (coverageIndicators sd)) else "Unknown") = "Unknown"
    rw [h]
    simp

/-- C9 witness: the singleton-indicator rule at a concrete bundle. -/
theorem coverage_union_amended_witness :
    coverageIndicators { search_results := "European worldwide presence" } =
      ["Europe"] ∧
    fallbackCoverage { search_results := "European worldwide presence" } = "Europe" :=
  ⟨by decide, coverage_union_amended.2.2.2.2.1 _ "Europe" (by decide)⟩

/-! ## Claim C10 -/

/-- C10: deduplication is lossy beyond duplicate removal — every candidate
in the output has a normalized name longer than two characters, and a
unique candidate with a two-character normalized name (`"AI"` → `"ai"`) is
dropped, so the output can have fewer entries than there are distinct
normalized names in the input. -/
theorem dedupe_short_name_dropped :
    (∀ (cs : List Candidate) (c : Candidate), c ∈ deduplicate_companies cs →
      2 < (normalizeName c.name).length) ∧
    deduplicate_companies [{ name := "AI" }] = [] ∧
    (normalizeName "AI").length = 2 :=
  ⟨fun cs c hm => (dedupAux_mem cs [] c hm).2.1, by decide, by decide⟩

/-- C10 witness: the membership bound applied at a concrete list. -/
theorem dedupe_short_name_dropped_witness :
    ({ name := "DoNotPay" } : Candidate) ∈
      deduplicate_companies [{ name := "DoNotPay" }] ∧
    2 < (normalizeName ({ name := "DoNotPay" } : Candidate).name).length :=
  ⟨by decide, dedupe_short_name_dropped.1 [{ name := "DoNotPay" }]
    { name := "DoNotPay" } (by decide)⟩

end Webscrap
